import Mathlib

/-!
# DX11Starter `Mesh`: OBJ loader and GPU buffer wrapper

A shallow embedding of `src/DX11Starter/Mesh.cpp`.

* Scalars (`float`) are an arbitrary type `F` carrying the four operations the
  source uses: the literals `1.0f` and `-1.0f`, `*` and `-`.
* `unsigned int` values are naturals reduced modulo `2 ^ 32`.
* Behaviour the C++ standard leaves undefined (reading a vector element out of range,
  a read of an `i[k]` that `sscanf_s` never assigned, a `%d` conversion that does
  not fit an `int`) is the result `none`.
* The Direct3D device is a parameter: a function from the history of
  `CreateBuffer` calls and the current call to what it does to the out-pointer.
-/

namespace DX11Starter

/-! ## Data model -/

/-- The DirectXMath pair of floats. -/
structure XMFLOAT2 (F : Type) where
  x : F
  y : F
  deriving DecidableEq, Repr

/-- The DirectXMath triple of floats. -/
structure XMFLOAT3 (F : Type) where
  x : F
  y : F
  z : F
  deriving DecidableEq, Repr

/-- Modelled from the spec: `Vertex.h` is not among the sources. The three fields are the
ones `Mesh.cpp` reads and writes (`Position`, `UV`, `Normal`), with the DirectXMath types
the loader copies into them. -/
structure Vertex (F : Type) where
  Position : XMFLOAT3 F
  UV : XMFLOAT2 F
  Normal : XMFLOAT3 F
  deriving DecidableEq, Repr

/-- The number of values of an `unsigned int` / `UINT` (32 bits under MSVC). -/
def UINT_MOD : Nat := 4294967296

/-- The largest `int` (32 bits under MSVC). -/
def INT_MAX : Nat := 2147483647

/-- The local variables of `Mesh::Mesh(char*, ID3D11Device*)` that the read loop updates. -/
structure ParseState (F : Type) where
  positions : List (XMFLOAT3 F)
  normals : List (XMFLOAT3 F)
  uvs : List (XMFLOAT2 F)
  verts : List (Vertex F)
  indices : List Nat
  vertCounter : Nat
  deriving DecidableEq, Repr

/-- The locals as declared before the loop: five empty vectors and `vertCounter = 0`. -/
def ParseState.initial (F : Type) : ParseState F :=
  { positions := [], normals := [], uvs := [], verts := [], indices := [], vertCounter := 0 }

/-! ## Reading lines: `while (obj.good()) { obj.getline(chars, 100); ... }` -/

/-- The call `obj.getline(chars, 100)` on the unread text: the buffer it leaves, the text
still unread, and whether `obj.good()` holds afterwards; `chars` holds what the call has
stored so far.

Characters are stored until, tested in this order: the input ends (`eofbit`, and `failbit`
as well when nothing was extracted), the next character is the newline (it is extracted and
not stored; the stream stays good), or 99 characters are stored (`failbit`). -/
def getline (chars : List Char) : List Char → List Char × List Char × Bool
  | [] => (chars, [], false)
  | c :: rest =>
    if c = '\n' then (chars, rest, true)
    else if 99 ≤ chars.length then (chars, c :: rest, false)
    else getline (chars ++ [c]) rest

/-- The line buffers the loop body sees, one per iteration of
`while (obj.good()) { obj.getline(chars, 100); ... }`, for the text still unread; `chars`
holds what the current `getline` call has stored so far. The body runs on every buffer
`getline` leaves, also on the one left by the call that ends the loop (end of input, or a
line of 100 characters or more, after which the rest of the file is never read). See
`getlines_eq_loop` for the loop written with `getline`. -/
def getlines (chars : List Char) : List Char → List (List Char)
  | [] => [chars]
  | c :: rest =>
    if c = '\n' then chars :: getlines [] rest
    else if 99 ≤ chars.length then [chars]
    else getlines (chars ++ [c]) rest

/-! ## `sscanf_s` -/

/-- The C `isspace` in the "C" locale. -/
def isspace (c : Char) : Bool :=
  c = ' ' || c = '\t' || c = '\n' || c = '\x0b' || c = '\x0c' || c = '\r'

/-- The C `isdigit`. -/
def isdigit (c : Char) : Bool :=
  decide (48 ≤ c.toNat) && decide (c.toNat ≤ 57)

/-- Drop leading white space. -/
def skipSpace : List Char → List Char
  | [] => []
  | c :: r => if isspace c then skipSpace r else c :: r

/-- Read a maximal run of decimal digits, accumulating its value. -/
def readDigits (acc : Nat) : List Char → Nat × List Char
  | [] => (acc, [])
  | c :: r => if isdigit c then readDigits (acc * 10 + (c.toNat - 48)) r else (acc, c :: r)

/-- The outcome of one `%d` conversion. -/
inductive IntScan where
  | ok (value : Nat) (rest : List Char)
  | matchFail
  | inputFail
  | undefined
  deriving DecidableEq, Repr

/-- The digits of a `%d` item after its optional sign: at least one digit is required, and a
value outside the range of `int` makes the behaviour undefined. The value stored through the
`unsigned int*` argument is the two's complement image of the `int`. -/
def scanMagnitude (negative : Bool) (s : List Char) : IntScan :=
  match s with
  | [] => .matchFail
  | c :: r =>
    if isdigit c then
      let (m, rest) := readDigits 0 (c :: r)
      if negative then
        if m ≤ INT_MAX + 1 then .ok ((UINT_MOD - m) % UINT_MOD) rest else .undefined
      else
        if m ≤ INT_MAX then .ok m rest else .undefined
    else .matchFail

/-- One `%d` conversion: skip white space, then an optionally signed decimal integer. -/
def scanInt (s : List Char) : IntScan :=
  match skipSpace s with
  | [] => .inputFail
  | c :: r =>
    if c = '-' then scanMagnitude true r
    else if c = '+' then scanMagnitude false r
    else scanMagnitude false (c :: r)

/-- The directives of a `scanf` format made of literals, white space and `%d`. -/
inductive Directive where
  | lit (c : Char)
  | ws
  | int
  deriving DecidableEq, Repr

/-- Split a format string into directives. -/
def parseFormat : List Char → List Directive
  | [] => []
  | c :: r =>
    if c = '%' then
      match r with
      | [] => []
      | _ :: r2 => Directive.int :: parseFormat r2
    else if isspace c then Directive.ws :: parseFormat r
    else Directive.lit c :: parseFormat r

/-- The return value when a scan stops at the end of the input: `EOF` if no conversion has
been made yet, otherwise the number of assignments. -/
def stopAtEnd (assigned : List Nat) : Int × List Nat :=
  if assigned.isEmpty then (-1, assigned) else ((assigned.length : Int), assigned)

/-- Run a format over a C string. The result is the return value of `sscanf_s` and the
values assigned so far, in argument order; later arguments are left untouched. `none` is
undefined behaviour (a `%d` whose value does not fit an `int`). -/
def runScanf : List Directive → List Char → List Nat → Option (Int × List Nat)
  | [], _, assigned => some ((assigned.length : Int), assigned)
  | Directive.ws :: ds, s, assigned => runScanf ds (skipSpace s) assigned
  | Directive.lit c :: ds, s, assigned =>
    match s with
    | [] => some (stopAtEnd assigned)
    | d :: r => if d = c then runScanf ds r assigned else some ((assigned.length : Int), assigned)
  | Directive.int :: ds, s, assigned =>
    match scanInt s with
    | .ok v rest => runScanf ds rest (assigned ++ [v])
    | .matchFail => some ((assigned.length : Int), assigned)
    | .inputFail => some (stopAtEnd assigned)
    | .undefined => none

/-- The format of the face branch. -/
def faceFormat : List Directive :=
  parseFormat "f %d/%d/%d %d/%d/%d %d/%d/%d %d/%d/%d".toList

/-- The call `sscanf_s(chars, "f %d/%d/%d %d/%d/%d %d/%d/%d %d/%d/%d", &i[0], ..., &i[11])`:
`facesRead` and the assigned initial segment of `i`. -/
def sscanfFace (chars : List Char) : Option (Int × List Nat) :=
  runScanf faceFormat chars []

/-- The `%f` scans of the loader, taken as a parameter: for a format and a C string, the
contents of the destination struct after `sscanf_s` returns (converted floats where the
conversion succeeded, whatever the uninitialised local held elsewhere). -/
structure FloatScanner (F : Type) where
  vec3 : String → List Char → XMFLOAT3 F
  vec2 : String → List Char → XMFLOAT2 F

/-! ## The loop body -/

/-- The C string in a buffer: the characters before the first NUL. -/
def cstr : List Char → List Char
  | [] => []
  | c :: r => if c = '\x00' then [] else c :: cstr r

/-- The expression `i[j] - 1` in `unsigned int` arithmetic. -/
def sub1 (k : Nat) : Nat := (k + UINT_MOD - 1) % UINT_MOD

/-- The statement `vertCounter += 1` in `unsigned int` arithmetic. -/
def incr (n : Nat) : Nat := (n + 1) % UINT_MOD

/-- The lookup `xs[i[j] - 1]`: undefined when `i[j]` was never assigned or the subscript is
out of range. -/
def fetch {α : Type} (xs : List α) (i : List Nat) (j : Nat) : Option α :=
  match i[j]? with
  | none => none
  | some k => xs[sub1 k]?

section Loader

variable {F : Type} [One F] [Neg F] [Mul F] [Sub F]

/-- The three flips applied to a looked-up vertex `v`: `v.UV.y = 1.0f - v.UV.y`,
`v.Position.z *= -1.0f`, `v.Normal.z *= -1.0f`. -/
def flip (v : Vertex F) : Vertex F :=
  { Position := { x := v.Position.x, y := v.Position.y, z := v.Position.z * (-1) },
    UV := { x := v.UV.x, y := 1 - v.UV.y },
    Normal := { x := v.Normal.x, y := v.Normal.y, z := v.Normal.z * (-1) } }

/-- The assignments `v.Position = positions[i[j] - 1]; v.UV = uvs[i[j+1] - 1];
v.Normal = normals[i[j+2] - 1];` for the corner that starts at `i[j]`. -/
def lookupVertex (st : ParseState F) (i : List Nat) (j : Nat) : Option (Vertex F) :=
  match fetch st.positions i j, fetch st.uvs i (j + 1), fetch st.normals i (j + 2) with
  | some p, some t, some n => some { Position := p, UV := t, Normal := n }
  | _, _, _ => none

/-- Three times `verts.push_back(..)` followed by three times
`indices.push_back(vertCounter); vertCounter += 1;`. -/
def pushTriangle (st : ParseState F) (a b c : Vertex F) : ParseState F :=
  { st with
    verts := st.verts ++ [a, b, c],
    indices := st.indices ++ [st.vertCounter, incr st.vertCounter, incr (incr st.vertCounter)],
    vertCounter := incr (incr (incr st.vertCounter)) }

/-- The branch `else if (chars[0] == 'f')`. -/
def faceBranch (st : ParseState F) (chars : List Char) : Option (ParseState F) :=
  match sscanfFace (cstr chars) with
  | none => none
  | some (facesRead, i) =>
    match lookupVertex st i 0, lookupVertex st i 3, lookupVertex st i 6 with
    | some v1, some v2, some v3 =>
      let v1 := flip v1
      let v2 := flip v2
      let v3 := flip v3
      let st1 := pushTriangle st v1 v3 v2
      if facesRead = 12 then
        match lookupVertex st i 9 with
        | some v4 =>
          let v4 := flip v4
          some (pushTriangle st1 v1 v4 v3)
        | none => none
      else some st1
    | _, _, _ => none

/-- One iteration of the loop body on the buffer `chars` that `getline` filled. `chars[0]`
and `chars[1]` are the first two characters of the line, or the terminating NUL. -/
def processLine (sc : FloatScanner F) (st : ParseState F) (chars : List Char) :
    Option (ParseState F) :=
  let c0 := chars.getD 0 '\x00'
  let c1 := chars.getD 1 '\x00'
  if c0 = 'v' ∧ c1 = 'n' then
    some { st with normals := st.normals ++ [sc.vec3 "vn %f %f %f" (cstr chars)] }
  else if c0 = 'v' ∧ c1 = 't' then
    some { st with uvs := st.uvs ++ [sc.vec2 "vt %f %f" (cstr chars)] }
  else if c0 = 'v' then
    some { st with positions := st.positions ++ [sc.vec3 "v %f %f %f" (cstr chars)] }
  else if c0 = 'f' then faceBranch st chars
  else some st

/-- The whole read loop over the buffers that `getline` delivers. -/
def parseLoop (sc : FloatScanner F) : List (List Char) → ParseState F → Option (ParseState F)
  | [], st => some st
  | chars :: more, st =>
    match processLine sc st chars with
    | none => none
    | some st1 => parseLoop sc more st1

/-- The state of the locals after the loop, for the text of an opened file. -/
def parseText (sc : FloatScanner F) (text : List Char) : Option (ParseState F) :=
  parseLoop sc (getlines [] text) (ParseState.initial F)

end Loader

/-! ## The device and the `Mesh` object -/

/-- The `D3D11_USAGE` enumeration of `d3d11.h`. -/
inductive D3D11_USAGE where
  | DEFAULT
  | IMMUTABLE
  | DYNAMIC
  | STAGING
  deriving DecidableEq, Repr

/-- The bind flag `D3D11_BIND_VERTEX_BUFFER` of `d3d11.h`. -/
def D3D11_BIND_VERTEX_BUFFER : Nat := 1

/-- The bind flag `D3D11_BIND_INDEX_BUFFER` of `d3d11.h`. -/
def D3D11_BIND_INDEX_BUFFER : Nat := 2

/-- The fields of `D3D11_BUFFER_DESC`; `ByteWidth` is a `UINT`. -/
structure D3D11_BUFFER_DESC where
  ByteWidth : Nat
  Usage : D3D11_USAGE
  BindFlags : Nat
  CPUAccessFlags : Nat
  MiscFlags : Nat
  StructureByteStride : Nat
  deriving DecidableEq, Repr

/-- What `pSysMem` points at: the caller's vertex array or index array. -/
inductive SysMem (F : Type) where
  | vertices (data : List (Vertex F))
  | indices (data : List Nat)
  deriving DecidableEq, Repr

/-- The one field of `D3D11_SUBRESOURCE_DATA` the source sets. -/
structure D3D11_SUBRESOURCE_DATA (F : Type) where
  pSysMem : SysMem F
  deriving DecidableEq, Repr

/-- What a `CreateBuffer` call does to the `ID3D11Buffer**` it is handed: store the handle
of a new buffer (success), store null, or leave the pointer as it was. -/
inductive OutWrite where
  | stored (handle : Nat)
  | nulled
  | untouched
  deriving DecidableEq, Repr

/-- One `device->CreateBuffer(&desc, &initialData, &buffer)` call with its effect. -/
structure CreateBufferCall (F : Type) where
  desc : D3D11_BUFFER_DESC
  initialData : D3D11_SUBRESOURCE_DATA F
  result : OutWrite
  deriving DecidableEq, Repr

/-- The device, taken as a parameter: its answer to a `CreateBuffer` call may depend on all
earlier calls. -/
abbrev ID3D11Device (F : Type) :=
  List (CreateBufferCall F) → D3D11_BUFFER_DESC → D3D11_SUBRESOURCE_DATA F → OutWrite

/-- The data members of `Mesh`; a null `ID3D11Buffer*` is `none`. -/
structure Mesh where
  vertexBuffer : Option Nat
  indexBuffer : Option Nat
  indexCount : Nat
  deriving DecidableEq, Repr

/-- A `Mesh` together with the `CreateBuffer` calls the device has received. -/
structure World (F : Type) where
  mesh : Mesh
  calls : List (CreateBufferCall F)
  deriving DecidableEq, Repr

/-- The value of a buffer pointer after a `CreateBuffer` call wrote through its address. -/
def OutWrite.apply (w : OutWrite) (old : Option Nat) : Option Nat :=
  match w with
  | .stored h => some h
  | .nulled => none
  | .untouched => old

/-- The size in bytes of an `int` under MSVC. -/
def sizeofInt : Nat := 4

/-- The description `Mesh::CreateVertexBuffer` fills in; `sizeofVertex` is `sizeof(Vertex)`,
a parameter because `Vertex.h` is not among the sources. -/
def vertexBufferDesc (sizeofVertex count : Nat) : D3D11_BUFFER_DESC :=
  { Usage := D3D11_USAGE.IMMUTABLE,
    ByteWidth := (sizeofVertex * count) % UINT_MOD,
    BindFlags := D3D11_BIND_VERTEX_BUFFER,
    CPUAccessFlags := 0,
    MiscFlags := 0,
    StructureByteStride := 0 }

/-- The description `Mesh::CreateIndexBuffer` fills in. -/
def indexBufferDesc (count : Nat) : D3D11_BUFFER_DESC :=
  { Usage := D3D11_USAGE.IMMUTABLE,
    ByteWidth := (sizeofInt * count) % UINT_MOD,
    BindFlags := D3D11_BIND_INDEX_BUFFER,
    CPUAccessFlags := 0,
    MiscFlags := 0,
    StructureByteStride := 0 }

section MeshOps

variable {F : Type}

/-- The helper `Mesh::CreateVertexBuffer(vertices, count, device)`. -/
def CreateVertexBuffer (sizeofVertex : Nat) (device : ID3D11Device F) (w : World F)
    (vertices : List (Vertex F)) (count : Nat) : World F :=
  let desc := vertexBufferDesc sizeofVertex count
  let initialData : D3D11_SUBRESOURCE_DATA F := { pSysMem := SysMem.vertices vertices }
  let result := device w.calls desc initialData
  { mesh := { w.mesh with vertexBuffer := result.apply w.mesh.vertexBuffer },
    calls := w.calls ++ [{ desc := desc, initialData := initialData, result := result }] }

/-- The helper `Mesh::CreateIndexBuffer(indices, count, device)`. -/
def CreateIndexBuffer (device : ID3D11Device F) (w : World F)
    (indices : List Nat) (count : Nat) : World F :=
  let desc := indexBufferDesc count
  let initialData : D3D11_SUBRESOURCE_DATA F := { pSysMem := SysMem.indices indices }
  let result := device w.calls desc initialData
  { mesh := { w.mesh with indexBuffer := result.apply w.mesh.indexBuffer },
    calls := w.calls ++ [{ desc := desc, initialData := initialData, result := result }] }

/-- The object once the constructor from arrays has run its three assignments
`vertexBuffer = 0; indexBuffer = 0; this->indexCount = indexCount;`. -/
def arraysStart (indexCount : Nat) (calls : List (CreateBufferCall F)) : World F :=
  { mesh := { vertexBuffer := none, indexBuffer := none, indexCount := indexCount },
    calls := calls }

/-- The constructor `Mesh::Mesh(Vertex*, unsigned int, unsigned int*, unsigned int,
ID3D11Device*)`; `calls` are the calls the device received earlier. -/
def Mesh.fromArrays (sizeofVertex : Nat) (device : ID3D11Device F)
    (calls : List (CreateBufferCall F))
    (vertices : List (Vertex F)) (vertexCount : Nat)
    (indices : List Nat) (indexCount : Nat) : World F :=
  let w0 := arraysStart indexCount calls
  let w1 := CreateVertexBuffer sizeofVertex device w0 vertices vertexCount
  CreateIndexBuffer device w1 indices indexCount

/-- The object once the constructor from a file has run `indexCount(0)` and
`vertexBuffer = 0; indexBuffer = 0;`. -/
def fileStart (calls : List (CreateBufferCall F)) : World F :=
  { mesh := { vertexBuffer := none, indexBuffer := none, indexCount := 0 },
    calls := calls }

/-- The tail of the constructor from a file, after the loop and `obj.close()`:
`CreateVertexBuffer(&verts[0], vertCounter, device);
CreateIndexBuffer(&indices[0], vertCounter, device); this->indexCount = vertCounter;`.
`&verts[0]` and `&indices[0]` only form the addresses of the vectors' storage: the
constructor reads nothing through them, and there is no test for an empty vector, so both
helpers are called whatever the loop assembled. -/
def createBuffers (sizeofVertex : Nat) (device : ID3D11Device F) (w0 : World F)
    (st : ParseState F) : World F :=
  let w1 := CreateVertexBuffer sizeofVertex device w0 st.verts st.vertCounter
  let w2 := CreateIndexBuffer device w1 st.indices st.vertCounter
  { w2 with mesh := { w2.mesh with indexCount := st.vertCounter } }

/-- The constructor `Mesh::Mesh(char*, ID3D11Device*)`. The file system is the argument
`file`: `none` when `obj.is_open()` is false, otherwise the text the stream delivers. -/
def Mesh.fromFile [One F] [Neg F] [Mul F] [Sub F] (sizeofVertex : Nat) (sc : FloatScanner F)
    (device : ID3D11Device F) (calls : List (CreateBufferCall F))
    (file : Option (List Char)) : Option (World F) :=
  let w0 : World F := fileStart calls
  match file with
  | none => some w0
  | some text =>
    match parseText sc text with
    | none => none
    | some st => some (createBuffers sizeofVertex device w0 st)

end MeshOps

/-- The destructor `Mesh::~Mesh`: the object afterwards and the handles `Release` was
called on, in order. -/
def Mesh.destroy (m : Mesh) : Mesh × List Nat :=
  let r1 := match m.vertexBuffer with
    | some h => [h]
    | none => []
  let r2 := match m.indexBuffer with
    | some h => [h]
    | none => []
  ({ m with vertexBuffer := none, indexBuffer := none }, r1 ++ r2)

/-- The accessor `Mesh::GetVertexBuffer`. -/
def Mesh.GetVertexBuffer (m : Mesh) : Option Nat := m.vertexBuffer

/-- The accessor `Mesh::GetIndexBuffer`. -/
def Mesh.GetIndexBuffer (m : Mesh) : Option Nat := m.indexBuffer

/-- The accessor `Mesh::GetIndexCount`. -/
def Mesh.GetIndexCount (m : Mesh) : Nat := m.indexCount


/-! ## Vocabulary of the properties -/

/-- The lines of a text: the pieces between its newline characters. -/
def textLines (text : List Char) : List (List Char) := text.splitOn '\n'

/-- The kinds of line the loader distinguishes. -/
inductive LineKind where
  | normal
  | uv
  | position
  | face
  | other
  deriving DecidableEq, Repr

/-- The kind of a line, read off its first two characters: `vn`, `vt`, any other `v`, `f`,
anything else. -/
def classify : List Char → LineKind
  | [] => LineKind.other
  | [c0] => if c0 = 'v' then LineKind.position else if c0 = 'f' then LineKind.face
      else LineKind.other
  | c0 :: c1 :: _ =>
    if c0 = 'v' then
      if c1 = 'n' then LineKind.normal else if c1 = 't' then LineKind.uv
      else LineKind.position
    else if c0 = 'f' then LineKind.face
    else LineKind.other

/-- The number of complete `p/t/n` corners `sscanf_s` converts on a line (at most four). -/
def corners (chars : List Char) : Nat :=
  match sscanfFace (cstr chars) with
  | some (facesRead, _) => facesRead.toNat / 3
  | none => 0

/-- A face line with exactly `n` complete corners. -/
def isFaceWith (n : Nat) (chars : List Char) : Bool :=
  decide (classify chars = LineKind.face) && decide (corners chars = n)

/-- The number `T` of three-corner face lines. -/
def triangleLines (lines : List (List Char)) : Nat := lines.countP (isFaceWith 3)

/-- The number `Q` of four-corner face lines. -/
def quadLines (lines : List (List Char)) : Nat := lines.countP (isFaceWith 4)

/-- The corner that starts at `i[j]` is complete and each of its indices `k` satisfies
`1 ≤ k ≤` the count of its kind. -/
def cornerInRange (np nt nn : Nat) (i : List Nat) (j : Nat) : Bool :=
  match i[j]?, i[j + 1]?, i[j + 2]? with
  | some p, some t, some n =>
    decide (1 ≤ p) && decide (p ≤ np) && decide (1 ≤ t) && decide (t ≤ nt) &&
      decide (1 ≤ n) && decide (n ≤ nn)
  | _, _, _ => false

/-- A face line has three or four complete corners, all with in-range indices, given the
numbers `np`, `nt`, `nn` of `v`, `vt`, `vn` lines before it. -/
def faceWellFormed (np nt nn : Nat) (chars : List Char) : Bool :=
  match sscanfFace (cstr chars) with
  | none => false
  | some (facesRead, i) =>
    cornerInRange np nt nn i 0 && cornerInRange np nt nn i 3 && cornerInRange np nt nn i 6 &&
      (decide (facesRead ≠ 12) || cornerInRange np nt nn i 9)

/-- Every face line of `lines` is well formed with respect to the `v`, `vt`, `vn` lines
before it; `np`, `nt`, `nn` count those seen before `lines` starts. -/
def wellFormedFrom (np nt nn : Nat) : List (List Char) → Bool
  | [] => true
  | chars :: more =>
    match classify chars with
    | LineKind.position => wellFormedFrom (np + 1) nt nn more
    | LineKind.uv => wellFormedFrom np (nt + 1) nn more
    | LineKind.normal => wellFormedFrom np nt (nn + 1) more
    | LineKind.face => faceWellFormed np nt nn chars && wellFormedFrom np nt nn more
    | LineKind.other => wellFormedFrom np nt nn more

/-- The lines of a given kind. -/
def linesOfKind (k : LineKind) (lines : List (List Char)) : List (List Char) :=
  lines.filter fun chars => decide (classify chars = k)

/-- The `p`-th element of a list, counting from 1. -/
def nth1 {α : Type} (xs : List α) (p : Nat) : Option α :=
  if p = 0 then none else xs[p - 1]?

section Vocabulary

variable {F : Type} [One F] [Neg F] [Mul F] [Sub F]

/-- The vertex the loader is to emit for the corner `p/t/n` that starts at `i[j]` of a face
line, given the lines before it: position `(x, y, z * -1)` of the `p`-th `v` line, UV
`(u, 1 - v)` of the `t`-th `vt` line, normal `(x, y, z * -1)` of the `n`-th `vn` line. -/
def cornerVertex (sc : FloatScanner F) (before : List (List Char)) (i : List Nat) (j : Nat) :
    Option (Vertex F) :=
  match i[j]?, i[j + 1]?, i[j + 2]? with
  | some p, some t, some n =>
    match nth1 (linesOfKind LineKind.position before) p,
        nth1 (linesOfKind LineKind.uv before) t,
        nth1 (linesOfKind LineKind.normal before) n with
    | some lp, some lt, some ln =>
      let P := sc.vec3 "v %f %f %f" (cstr lp)
      let U := sc.vec2 "vt %f %f" (cstr lt)
      let N := sc.vec3 "vn %f %f %f" (cstr ln)
      some { Position := { x := P.x, y := P.y, z := P.z * (-1) },
             UV := { x := U.x, y := 1 - U.y },
             Normal := { x := N.x, y := N.y, z := N.z * (-1) } }
    | _, _, _ => none
  | _, _, _ => none

end Vocabulary

/-- The counter and the index list agree with the vertex list, in `unsigned int`
arithmetic: `indices[k] = k mod 2^32` for every vertex slot `k`, and `vertCounter` is the
number of vertices `mod 2^32`. -/
def Aligned {F : Type} (st : ParseState F) : Prop :=
  st.indices = (List.range st.verts.length).map (fun k => k % UINT_MOD) ∧
    st.vertCounter = st.verts.length % UINT_MOD

/-- The number of `%d` directives of a format. -/
def countInts : List Directive → Nat
  | [] => 0
  | Directive.int :: ds => countInts ds + 1
  | _ :: ds => countInts ds

/-- The handles the device stored during a sequence of `CreateBuffer` calls. -/
def storedHandles {F : Type} (calls : List (CreateBufferCall F)) : List Nat :=
  calls.filterMap fun c =>
    match c.result with
    | OutWrite.stored h => some h
    | _ => none

/-! ## Sample inputs used to run the model -/

/-- The decimal digit at place `k` of a string, as a scalar. -/
def digitAt (s : List Char) (k : Nat) : Int := ((s.getD k '0').toNat : Int) - 48

/-- A stand-in for the `%f` conversions over `Int` scalars, for lines whose numbers are
single digits separated by single blanks: `v a b c` and `vn a b c` read as `(a, b, c)`,
`vt a b` as `(a, b)`. -/
def sampleScanner : FloatScanner Int :=
  { vec3 := fun fmt s =>
      if fmt.toList.getD 1 ' ' = 'n' then ⟨digitAt s 3, digitAt s 5, digitAt s 7⟩
      else ⟨digitAt s 2, digitAt s 4, digitAt s 6⟩,
    vec2 := fun _ s => ⟨digitAt s 3, digitAt s 5⟩ }

/-- A device that always succeeds and hands out the handles 1, 2, 3, ... -/
def sampleDevice : ID3D11Device Int :=
  fun calls _ _ => OutWrite.stored (calls.length + 1)

/-- A small OBJ text: four positions, two UVs, one normal, a triangle and a quad. -/
def sampleText : List Char :=
  ("# demo\nv 1 2 3\nv 4 5 6\nv 7 8 9\nv 2 4 6\nvt 0 1\nvt 1 0\nvn 0 0 1\n" ++
    "f 1/1/1 2/2/1 3/1/1\nf 1/1/1 2/2/1 3/1/1 4/2/1\n").toList

/-- An OBJ text with positions but no face line. -/
def facelessText : List Char := "# points only\nv 1 2 3\nv 4 5 6\n".toList

/-- An OBJ text whose one face line is padded with blanks to 108 characters: the first 99
of them end inside its second corner. -/
def paddedText : List Char :=
  "v 1 2 3\nvt 0 1\nvn 0 0 1\n".toList ++ 'f' :: (List.replicate 90 ' ' ++
    "1/1/1 1/1/1 1/1/1\n".toList)

/-- An OBJ text whose last line is a face line of 109 characters with four corners: the
first 99 of them hold three corners and blanks. -/
def longQuadText : List Char :=
  "v 1 2 3\nv 4 5 6\nv 7 8 9\nv 2 4 6\nvt 0 1\nvt 1 0\nvn 0 0 1\n".toList ++
    ("f 1/1/1 2/2/1 3/1/1".toList ++ (List.replicate 85 ' ' ++ "4/2/1\n".toList))

/-- The lines before the face line of `truncatedIndexText`: three positions, one UV and
twelve normals, the first `(0, 0, 1)` and the twelfth `(1, 0, 0)`. -/
def twelveNormals : List Char :=
  ("v 1 2 3\nv 4 5 6\nv 7 8 9\nvt 0 1\nvn 0 0 1\n" ++
    "vn 0 1 0\nvn 0 1 0\nvn 0 1 0\nvn 0 1 0\nvn 0 1 0\n" ++
    "vn 0 1 0\nvn 0 1 0\nvn 0 1 0\nvn 0 1 0\nvn 0 1 0\nvn 1 0 0\n").toList

/-- The face line of `truncatedIndexText`: 100 characters, the last corner `3/1/12`. -/
def truncatedFaceLine : List Char :=
  "f 1/1/1 2/1/1".toList ++ (List.replicate 81 ' ' ++ "3/1/12".toList)

/-- An OBJ text whose face line is 100 characters long and ends in the corner `3/1/12`: the
first 99 characters end in `3/1/1`. -/
def truncatedIndexText : List Char := twelveNormals ++ (truncatedFaceLine ++ ['\n'])

/-- An OBJ text that starts with a comment line of 101 characters, followed by a `vn`, a
`vt` and a `v` line. -/
def longCommentText : List Char :=
  '#' :: (List.replicate 100 ' ' ++ "\nvn 0 0 1\nvt 0 1\nv 1 2 3\n".toList)

/-- The text `s` written `n` times in a row. -/
def repeatText (s : List Char) : Nat → List Char
  | 0 => []
  | n + 1 => s ++ repeatText s n

/-- A face line with four corners, all naming the first position, UV and normal. -/
def quadLine : List Char := "f 1/1/1 1/1/1 1/1/1 1/1/1".toList

/-- An OBJ text with one position, one UV, one normal and `n` copies of `quadLine`. -/
def manyQuadsText (n : Nat) : List Char :=
  "v 1 2 3\nvt 0 1\nvn 0 0 1\n".toList ++ repeatText (quadLine ++ ['\n']) n

/-! ## Proofs -/

section Lifetime

variable {F : Type}

theorem apply_none_eq_some (r : OutWrite) (h : Nat) :
    r.apply none = some h ↔ r = OutWrite.stored h := by
  cases r <;> simp [OutWrite.apply]

/-- The constructor from a file, once the file is open: the loop, then both helpers. -/
theorem fromFile_some [One F] [Neg F] [Mul F] [Sub F] (sv : Nat) (sc : FloatScanner F)
    (device : ID3D11Device F) (calls : List (CreateBufferCall F)) (text : List Char) :
    Mesh.fromFile sv sc device calls (some text) =
      (parseText sc text).map (createBuffers sv device (fileStart calls)) := by
  simp only [Mesh.fromFile]
  cases parseText sc text <;> rfl

end Lifetime

/-! ### Reading lines -/

/-- The buffers of `getlines` are those of the loop `while (good) { getline; body }`: the
buffer of one `getline` call, followed by the buffers of the rest when the stream is still
good. -/
theorem getlines_eq_loop (text : List Char) :
    ∀ chars : List Char,
      getlines chars text =
        if (getline chars text).2.2 = true then
          (getline chars text).1 :: getlines [] (getline chars text).2.1
        else [(getline chars text).1] := by
  induction text with
  | nil =>
    intro chars
    simp [getlines, getline]
  | cons c rest ih =>
    intro chars
    by_cases hc : c = '\n'
    · simp [getlines, getline, hc]
    · by_cases hfull : 99 ≤ chars.length
      · simp [getlines, getline, hc, hfull]
      · simp only [getlines, getline, hc, hfull, if_false]
        exact ih (chars ++ [c])

theorem getlines_eq_modifyHead (text : List Char) :
    ∀ chars : List Char,
      (∀ l ∈ (text.splitOnP (· == '\n')).modifyHead (chars ++ ·), l.length < 100) →
      getlines chars text = (text.splitOnP (· == '\n')).modifyHead (chars ++ ·) := by
  induction text with
  | nil =>
    intro chars _
    simp [getlines, List.splitOnP_nil]
  | cons c rest ih =>
    intro chars h
    rw [List.splitOnP_cons] at h ⊢
    by_cases hc : c = '\n'
    · subst hc
      simp only [beq_self_eq_true, if_true, List.modifyHead_cons, List.append_nil] at h ⊢
      have h2 := ih [] (by
        intro l hl
        have : (List.splitOnP (· == '\n') rest).modifyHead ([] ++ ·) =
            List.splitOnP (· == '\n') rest := by
          cases List.splitOnP (· == '\n') rest <;> simp
        rw [this] at hl
        exact h l (List.mem_cons_of_mem _ hl))
      have h3 : (List.splitOnP (· == '\n') rest).modifyHead ([] ++ ·) =
          List.splitOnP (· == '\n') rest := by
        cases List.splitOnP (· == '\n') rest <;> simp
      rw [h3] at h2
      simp [getlines, h2]
    · have hb : (c == '\n') = false := by simpa using hc
      simp only [hb] at h ⊢
      obtain ⟨hd, tl, hsplit⟩ : ∃ hd tl, List.splitOnP (· == '\n') rest = hd :: tl := by
        cases hs : List.splitOnP (· == '\n') rest with
        | nil => exact absurd hs (List.splitOnP_ne_nil _ _)
        | cons hd tl => exact ⟨hd, tl, rfl⟩
      rw [hsplit] at h ⊢
      simp only [Bool.false_eq_true, if_false, List.modifyHead_cons] at h ⊢
      have hlen := h (chars ++ c :: hd) (List.mem_cons_self _ _)
      simp only [List.length_append, List.length_cons] at hlen
      have hnot : ¬ 99 ≤ chars.length := by omega
      have h2 := ih (chars ++ [c]) (by
        intro l hl
        rw [hsplit] at hl
        simp only [List.modifyHead_cons, List.append_assoc, List.singleton_append] at hl
        exact h l hl)
      rw [hsplit] at h2
      simp only [List.modifyHead_cons, List.append_assoc, List.singleton_append] at h2
      simp [getlines, hc, hnot, h2]

/-- When every line of the text is shorter than 100 characters, the loop body sees exactly
the lines of the text. -/
theorem getlines_eq_textLines (text : List Char)
    (h : ∀ l ∈ textLines text, l.length < 100) :
    getlines [] text = textLines text := by
  have hid : ∀ L : List (List Char), L.modifyHead ([] ++ ·) = L := by
    intro L; cases L <;> simp
  have := getlines_eq_modifyHead text [] (by rw [hid]; exact h)
  rw [hid] at this
  exact this

/-! ### The loop body, branch by branch -/

section Body

variable {F : Type} [One F] [Neg F] [Mul F] [Sub F]

theorem processLine_normal (sc : FloatScanner F) (st : ParseState F) (chars : List Char)
    (h : classify chars = LineKind.normal) :
    processLine sc st chars =
      some { st with normals := st.normals ++ [sc.vec3 "vn %f %f %f" (cstr chars)] } := by
  match chars, h with
  | [], h => simp [classify] at h
  | [c0], h =>
    simp only [classify] at h
    split_ifs at h
  | c0 :: c1 :: r, h =>
    simp only [classify] at h
    split_ifs at h with h0 h1
    simp [processLine, h0, h1]

theorem processLine_uv (sc : FloatScanner F) (st : ParseState F) (chars : List Char)
    (h : classify chars = LineKind.uv) :
    processLine sc st chars =
      some { st with uvs := st.uvs ++ [sc.vec2 "vt %f %f" (cstr chars)] } := by
  match chars, h with
  | [], h => simp [classify] at h
  | [c0], h =>
    simp only [classify] at h
    split_ifs at h
  | c0 :: c1 :: r, h =>
    simp only [classify] at h
    split_ifs at h with h0 h1 h2
    simp [processLine, h0, h1, h2]

theorem processLine_position (sc : FloatScanner F) (st : ParseState F) (chars : List Char)
    (h : classify chars = LineKind.position) :
    processLine sc st chars =
      some { st with positions := st.positions ++ [sc.vec3 "v %f %f %f" (cstr chars)] } := by
  match chars, h with
  | [], h => simp [classify] at h
  | [c0], h =>
    simp only [classify] at h
    split_ifs at h with h0
    simp [processLine, h0]
  | c0 :: c1 :: r, h =>
    simp only [classify] at h
    split_ifs at h with h0 h1 h2
    simp [processLine, h0, h1, h2]

theorem processLine_face (sc : FloatScanner F) (st : ParseState F) (chars : List Char)
    (h : classify chars = LineKind.face) :
    processLine sc st chars = faceBranch st chars := by
  match chars, h with
  | [], h => simp [classify] at h
  | [c0], h =>
    simp only [classify] at h
    split_ifs at h
    simp_all [processLine]
  | c0 :: c1 :: r, h =>
    simp only [classify] at h
    split_ifs at h
    simp_all [processLine]

theorem processLine_other (sc : FloatScanner F) (st : ParseState F) (chars : List Char)
    (h : classify chars = LineKind.other) :
    processLine sc st chars = some st := by
  match chars, h with
  | [], _ => simp [processLine]
  | [c0], h =>
    simp only [classify] at h
    split_ifs at h
    simp_all [processLine]
  | c0 :: c1 :: r, h =>
    simp only [classify] at h
    split_ifs at h
    simp_all [processLine]

/-- What a completed face branch did: three looked-up corners, flipped, pushed as one
triangle, and with `facesRead = 12` a fourth corner and a second triangle. -/
theorem faceBranch_eq_some (st st1 : ParseState F) (chars : List Char)
    (h : faceBranch st chars = some st1) :
    ∃ facesRead i v1 v2 v3,
      sscanfFace (cstr chars) = some (facesRead, i) ∧
      lookupVertex st i 0 = some v1 ∧ lookupVertex st i 3 = some v2 ∧
      lookupVertex st i 6 = some v3 ∧
      ((facesRead ≠ 12 ∧ st1 = pushTriangle st (flip v1) (flip v3) (flip v2)) ∨
       (facesRead = 12 ∧ ∃ v4, lookupVertex st i 9 = some v4 ∧
          st1 = pushTriangle (pushTriangle st (flip v1) (flip v3) (flip v2))
                  (flip v1) (flip v4) (flip v3))) := by
  unfold faceBranch at h
  split at h
  · simp at h
  · rename_i facesRead i hs
    split at h
    · rename_i v1 v2 v3 h1 h2 h3
      refine ⟨facesRead, i, v1, v2, v3, hs, h1, h2, h3, ?_⟩
      by_cases h12 : facesRead = 12
      · right
        simp only [h12, if_true] at h
        split at h
        · rename_i v4 h4
          simp only [Option.some.injEq] at h
          exact ⟨h12, v4, h4, h.symm⟩
        · simp at h
      · left
        simp only [h12, if_false, Option.some.injEq] at h
        exact ⟨h12, h.symm⟩
    · simp at h

end Body

/-! ### Counter, indices and the untouched vectors -/

theorem incr_mod (n : Nat) : incr (n % UINT_MOD) = (n + 1) % UINT_MOD := by
  unfold incr UINT_MOD
  omega

section Push

variable {F : Type}

theorem aligned_initial : Aligned (ParseState.initial F) := by
  simp [Aligned, ParseState.initial]

theorem aligned_pushTriangle (st : ParseState F) (a b c : Vertex F) (h : Aligned st) :
    Aligned (pushTriangle st a b c) := by
  obtain ⟨hi, hc⟩ := h
  have e1 := incr_mod st.verts.length
  have e2 := incr_mod (st.verts.length + 1)
  have e3 := incr_mod (st.verts.length + 2)
  constructor
  · simp only [pushTriangle, List.length_append, List.length_cons, List.length_nil]
    rw [hi, hc, e1, e2]
    simp [List.range_succ]
  · simp only [pushTriangle, List.length_append, List.length_cons, List.length_nil]
    rw [hc, e1, e2, e3]

theorem pushTriangle_frame (st : ParseState F) (a b c : Vertex F) :
    (pushTriangle st a b c).positions = st.positions ∧
    (pushTriangle st a b c).normals = st.normals ∧
    (pushTriangle st a b c).uvs = st.uvs ∧
    (pushTriangle st a b c).verts = st.verts ++ [a, b, c] :=
  ⟨rfl, rfl, rfl, rfl⟩

end Push

section Frame

variable {F : Type} [One F] [Neg F] [Mul F] [Sub F]

theorem faceBranch_frame (st st1 : ParseState F) (chars : List Char)
    (h : faceBranch st chars = some st1) :
    st1.positions = st.positions ∧ st1.normals = st.normals ∧ st1.uvs = st.uvs := by
  obtain ⟨facesRead, i, v1, v2, v3, _, _, _, _, hcase⟩ := faceBranch_eq_some st st1 chars h
  rcases hcase with ⟨_, rfl⟩ | ⟨_, v4, _, rfl⟩
  · exact ⟨rfl, rfl, rfl⟩
  · exact ⟨rfl, rfl, rfl⟩

theorem faceBranch_aligned (st st1 : ParseState F) (chars : List Char)
    (h : faceBranch st chars = some st1) (ha : Aligned st) : Aligned st1 := by
  obtain ⟨facesRead, i, v1, v2, v3, _, _, _, _, hcase⟩ := faceBranch_eq_some st st1 chars h
  rcases hcase with ⟨_, rfl⟩ | ⟨_, v4, _, rfl⟩
  · exact aligned_pushTriangle _ _ _ _ ha
  · exact aligned_pushTriangle _ _ _ _ (aligned_pushTriangle _ _ _ _ ha)

theorem processLine_aligned (sc : FloatScanner F) (st st1 : ParseState F) (chars : List Char)
    (h : processLine sc st chars = some st1) (ha : Aligned st) : Aligned st1 := by
  cases hk : classify chars with
  | normal =>
    rw [processLine_normal sc st chars hk] at h
    simp only [Option.some.injEq] at h
    subst h
    exact ha
  | uv =>
    rw [processLine_uv sc st chars hk] at h
    simp only [Option.some.injEq] at h
    subst h
    exact ha
  | position =>
    rw [processLine_position sc st chars hk] at h
    simp only [Option.some.injEq] at h
    subst h
    exact ha
  | face =>
    rw [processLine_face sc st chars hk] at h
    exact faceBranch_aligned st st1 chars h ha
  | other =>
    rw [processLine_other sc st chars hk] at h
    simp only [Option.some.injEq] at h
    subst h
    exact ha

theorem parseLoop_aligned (sc : FloatScanner F) (lines : List (List Char)) :
    ∀ st st1 : ParseState F, parseLoop sc lines st = some st1 → Aligned st → Aligned st1 := by
  induction lines with
  | nil =>
    intro st st1 h ha
    simp only [parseLoop, Option.some.injEq] at h
    subst h
    exact ha
  | cons chars more ih =>
    intro st st1 h ha
    simp only [parseLoop] at h
    split at h
    · simp at h
    · rename_i st2 h2
      exact ih st2 st1 h (processLine_aligned sc st st2 chars h2 ha)

theorem parseLoop_append (sc : FloatScanner F) (a b : List (List Char)) :
    ∀ st : ParseState F,
      parseLoop sc (a ++ b) st = (parseLoop sc a st).bind (parseLoop sc b) := by
  induction a with
  | nil => intro st; simp [parseLoop]
  | cons chars more ih =>
    intro st
    simp only [List.cons_append, parseLoop]
    split
    · simp
    · rename_i st2 _
      exact ih st2

end Frame

/-! ### What `sscanf_s` can return -/

theorem scanMagnitude_lt (negative : Bool) (s rest : List Char) (v : Nat)
    (h : scanMagnitude negative s = IntScan.ok v rest) : v < UINT_MOD := by
  unfold scanMagnitude at h
  split at h
  · simp at h
  · rename_i c r
    generalize readDigits 0 (c :: r) = p at h
    obtain ⟨m, r2⟩ := p
    simp only at h
    split_ifs at h with hd hneg hle hle2
    · simp only [IntScan.ok.injEq] at h
      rw [← h.1]
      exact Nat.mod_lt _ (by decide)
    · simp only [IntScan.ok.injEq] at h
      rw [← h.1]
      unfold INT_MAX at hle2
      unfold UINT_MOD
      omega

theorem scanInt_lt (s rest : List Char) (v : Nat)
    (h : scanInt s = IntScan.ok v rest) : v < UINT_MOD := by
  unfold scanInt at h
  split at h
  · simp at h
  · split_ifs at h
    all_goals exact scanMagnitude_lt _ _ _ _ h

theorem runScanf_spec (ds : List Directive) :
    ∀ (s : List Char) (assigned : List Nat) (n : Int) (i : List Nat),
      runScanf ds s assigned = some (n, i) →
      (∀ k ∈ assigned, k < UINT_MOD) →
      (∀ k ∈ i, k < UINT_MOD) ∧ i.length ≤ assigned.length + countInts ds ∧
        (n = (i.length : Int) ∨ (n = -1 ∧ i = [])) := by
  induction ds with
  | nil =>
    intro s assigned n i h hlt
    simp only [runScanf, Option.some.injEq, Prod.mk.injEq] at h
    obtain ⟨rfl, rfl⟩ := h
    exact ⟨hlt, by simp [countInts], Or.inl rfl⟩
  | cons d ds ih =>
    intro s assigned n i h hlt
    have hstop : ∀ p : Int × List Nat, stopAtEnd assigned = p →
        p.2 = assigned ∧ (p.1 = (p.2.length : Int) ∨ (p.1 = -1 ∧ p.2 = [])) := by
      intro p hp
      unfold stopAtEnd at hp
      split_ifs at hp with he
      · subst hp
        simp only [List.isEmpty_iff] at he
        exact ⟨rfl, Or.inr ⟨rfl, he⟩⟩
      · subst hp
        exact ⟨rfl, Or.inl rfl⟩
    cases d with
    | lit c =>
      cases s with
      | nil =>
        simp only [runScanf, Option.some.injEq] at h
        obtain ⟨h1, h2⟩ := hstop _ h
        simp only at h1 h2
        subst h1
        exact ⟨hlt, by omega, h2⟩
      | cons d r =>
        simp only [runScanf] at h
        split_ifs at h
        · obtain ⟨a, b, c⟩ := ih r assigned n i h hlt
          exact ⟨a, by simp only [countInts]; omega, c⟩
        · simp only [Option.some.injEq, Prod.mk.injEq] at h
          obtain ⟨rfl, rfl⟩ := h
          exact ⟨hlt, by omega, Or.inl rfl⟩
    | ws =>
      simp only [runScanf] at h
      obtain ⟨a, b, c⟩ := ih _ assigned n i h hlt
      exact ⟨a, by simp only [countInts]; omega, c⟩
    | int =>
      simp only [runScanf] at h
      split at h
      · rename_i v rest hv
        have hv2 := scanInt_lt _ _ _ hv
        obtain ⟨a, b, c⟩ := ih rest (assigned ++ [v]) n i h (by
          intro k hk
          rcases List.mem_append.mp hk with hk | hk
          · exact hlt k hk
          · simp only [List.mem_singleton] at hk
            subst hk
            exact hv2)
        refine ⟨a, ?_, c⟩
        simp only [List.length_append, List.length_singleton] at b
        simp only [countInts]
        omega
      · simp only [Option.some.injEq, Prod.mk.injEq] at h
        obtain ⟨rfl, rfl⟩ := h
        exact ⟨hlt, by omega, Or.inl rfl⟩
      · simp only [Option.some.injEq] at h
        obtain ⟨h1, h2⟩ := hstop _ h
        simp only at h1 h2
        subst h1
        exact ⟨hlt, by omega, h2⟩
      · simp at h

/-- The face scan assigns at most twelve values, each an `unsigned int`, and returns their
number (or `EOF` with none assigned). -/
theorem sscanfFace_spec (s : List Char) (n : Int) (i : List Nat)
    (h : sscanfFace s = some (n, i)) :
    (∀ k ∈ i, k < UINT_MOD) ∧ i.length ≤ 12 ∧ (n = (i.length : Int) ∨ (n = -1 ∧ i = [])) := by
  have := runScanf_spec faceFormat s [] n i h (by simp)
  have hc : countInts faceFormat = 12 := by decide
  rw [hc] at this
  simpa using this

/-- Under its precondition the 1-based adjustment does not wrap. -/
theorem sub1_eq (k : Nat) (h1 : 1 ≤ k) (h2 : k < UINT_MOD) : sub1 k = k - 1 := by
  unfold sub1
  unfold UINT_MOD at *
  omega

/-! ### Well-formed face lines -/

theorem pushTriangle_length {F : Type} (st : ParseState F) (a b c : Vertex F) :
    (pushTriangle st a b c).verts.length = st.verts.length + 3 := by
  simp [pushTriangle]

theorem fetch_of_inRange {α : Type} (xs : List α) (i : List Nat) (j k : Nat)
    (hk : i[j]? = some k) (h1 : 1 ≤ k) (h2 : k ≤ xs.length) (h3 : k < UINT_MOD) :
    sub1 k = k - 1 ∧ sub1 k < xs.length ∧ fetch xs i j = xs[k - 1]? ∧
      ∃ x, xs[k - 1]? = some x := by
  have e := sub1_eq k h1 h3
  have hlt : k - 1 < xs.length := by omega
  refine ⟨e, by omega, ?_, ?_⟩
  · simp [fetch, hk, e]
  · exact ⟨xs[k - 1], List.getElem?_eq_getElem hlt⟩

/-- A complete corner with in-range indices: none of its three subscripts wraps, each is in
bounds, and the lookup succeeds. -/
theorem lookupVertex_of_inRange {F : Type} (st : ParseState F) (i : List Nat) (j : Nat)
    (hlt : ∀ k ∈ i, k < UINT_MOD)
    (h : cornerInRange st.positions.length st.uvs.length st.normals.length i j = true) :
    ∃ p t n, i[j]? = some p ∧ i[j + 1]? = some t ∧ i[j + 2]? = some n ∧
      (sub1 p = p - 1 ∧ sub1 p < st.positions.length) ∧
      (sub1 t = t - 1 ∧ sub1 t < st.uvs.length) ∧
      (sub1 n = n - 1 ∧ sub1 n < st.normals.length) ∧
      ∃ v, lookupVertex st i j = some v := by
  unfold cornerInRange at h
  split at h
  · rename_i p t n hp ht hn
    simp only [Bool.and_eq_true, decide_eq_true_eq] at h
    obtain ⟨⟨⟨⟨⟨p1, p2⟩, t1⟩, t2⟩, n1⟩, n2⟩ := h
    have hp3 := hlt p (List.getElem?_mem hp)
    have ht3 := hlt t (List.getElem?_mem ht)
    have hn3 := hlt n (List.getElem?_mem hn)
    obtain ⟨a1, a2, a3, P, a4⟩ := fetch_of_inRange st.positions i j p hp p1 p2 hp3
    obtain ⟨b1, b2, b3, U, b4⟩ := fetch_of_inRange st.uvs i (j + 1) t ht t1 t2 ht3
    obtain ⟨c1, c2, c3, N, c4⟩ := fetch_of_inRange st.normals i (j + 2) n hn n1 n2 hn3
    refine ⟨p, t, n, hp, ht, hn, ⟨a1, a2⟩, ⟨b1, b2⟩, ⟨c1, c2⟩, ?_⟩
    exact ⟨{ Position := P, UV := U, Normal := N }, by
      simp [lookupVertex, a3, a4, b3, b4, c3, c4]⟩
  · simp at h

section WellFormed

variable {F : Type} [One F] [Neg F] [Mul F] [Sub F]

/-- A well-formed face line is processed without undefined behaviour and adds three
vertices when it has three corners, six when it has four. -/
theorem faceBranch_wellFormed (st : ParseState F) (chars : List Char)
    (hk : classify chars = LineKind.face)
    (h : faceWellFormed st.positions.length st.uvs.length st.normals.length chars = true) :
    ∃ st1, faceBranch st chars = some st1 ∧
      st1.verts.length = st.verts.length +
        3 * (if isFaceWith 3 chars = true then 1 else 0) +
        6 * (if isFaceWith 4 chars = true then 1 else 0) := by
  unfold faceWellFormed at h
  split at h
  · simp at h
  · rename_i facesRead i hs
    obtain ⟨hlt, hlen, hn⟩ := sscanfFace_spec _ _ _ hs
    simp only [Bool.and_eq_true, Bool.or_eq_true, decide_eq_true_eq] at h
    obtain ⟨⟨⟨h0, h3⟩, h6⟩, h9⟩ := h
    obtain ⟨_, _, _, _, _, _, _, _, _, v1, e1⟩ := lookupVertex_of_inRange st i 0 hlt h0
    obtain ⟨_, _, _, _, _, _, _, _, _, v2, e2⟩ := lookupVertex_of_inRange st i 3 hlt h3
    obtain ⟨_, _, n8, _, _, hi8, _, _, _, v3, e3⟩ := lookupVertex_of_inRange st i 6 hlt h6
    have hlen9 : 9 ≤ i.length := by
      have := (List.getElem?_eq_some_iff.mp hi8).1
      omega
    have hfr : facesRead = (i.length : Int) := by
      rcases hn with hn | ⟨_, hn⟩
      · exact hn
      · rw [hn] at hlen9
        simp at hlen9
    by_cases h12 : facesRead = 12
    · have h9b : cornerInRange st.positions.length st.uvs.length st.normals.length i 9
          = true := by
        rcases h9 with h9 | h9
        · exact absurd h12 h9
        · exact h9
      obtain ⟨_, _, _, _, _, _, _, _, _, v4, e4⟩ := lookupVertex_of_inRange st i 9 hlt h9b
      refine ⟨pushTriangle (pushTriangle st (flip v1) (flip v3) (flip v2))
        (flip v1) (flip v4) (flip v3), ?_, ?_⟩
      · simp [faceBranch, hs, e1, e2, e3, e4, h12]
      · have hc : corners chars = 4 := by
          simp [corners, hs, h12]
        simp [pushTriangle_length, isFaceWith, hk, hc]
    · refine ⟨pushTriangle st (flip v1) (flip v3) (flip v2), ?_, ?_⟩
      · simp [faceBranch, hs, e1, e2, e3, h12]
      · have hc : corners chars = 3 := by
          simp only [corners, hs, hfr, Int.toNat_ofNat]
          have : i.length ≠ 12 := by
            intro h; apply h12; rw [hfr, h]; rfl
          omega
        simp [pushTriangle_length, isFaceWith, hk, hc]

theorem not_isFaceWith (n : Nat) (chars : List Char) (h : classify chars ≠ LineKind.face) :
    isFaceWith n chars = false := by
  simp [isFaceWith, h]

/-- On a text whose face lines are all well formed the loop runs to its end, and the
number of vertices grows by `3 * T + 6 * Q`. -/
theorem parseLoop_wellFormed (sc : FloatScanner F) (lines : List (List Char)) :
    ∀ st : ParseState F,
      wellFormedFrom st.positions.length st.uvs.length st.normals.length lines = true →
      ∃ st1, parseLoop sc lines st = some st1 ∧
        st1.verts.length = st.verts.length + 3 * triangleLines lines + 6 * quadLines lines := by
  induction lines with
  | nil =>
    intro st _
    exact ⟨st, rfl, by simp [triangleLines, quadLines]⟩
  | cons chars more ih =>
    intro st h
    have hcount : ∀ n, List.countP (isFaceWith n) (chars :: more) =
        List.countP (isFaceWith n) more + (if isFaceWith n chars = true then 1 else 0) :=
      fun n => List.countP_cons _ _ _
    simp only [triangleLines, quadLines, hcount] at ih ⊢
    unfold wellFormedFrom at h
    cases hk : classify chars with
    | normal =>
      simp only [hk] at h
      have hf : classify chars ≠ LineKind.face := by simp [hk]
      obtain ⟨st1, e, l⟩ := ih { st with normals :=
        st.normals ++ [sc.vec3 "vn %f %f %f" (cstr chars)] } (by simpa using h)
      refine ⟨st1, ?_, ?_⟩
      · simp only [parseLoop, processLine_normal sc st chars hk]
        exact e
      · simp only [not_isFaceWith _ chars hf]
        simpa using l
    | uv =>
      simp only [hk] at h
      have hf : classify chars ≠ LineKind.face := by simp [hk]
      obtain ⟨st1, e, l⟩ := ih { st with uvs :=
        st.uvs ++ [sc.vec2 "vt %f %f" (cstr chars)] } (by simpa using h)
      refine ⟨st1, ?_, ?_⟩
      · simp only [parseLoop, processLine_uv sc st chars hk]
        exact e
      · simp only [not_isFaceWith _ chars hf]
        simpa using l
    | position =>
      simp only [hk] at h
      have hf : classify chars ≠ LineKind.face := by simp [hk]
      obtain ⟨st1, e, l⟩ := ih { st with positions :=
        st.positions ++ [sc.vec3 "v %f %f %f" (cstr chars)] } (by simpa using h)
      refine ⟨st1, ?_, ?_⟩
      · simp only [parseLoop, processLine_position sc st chars hk]
        exact e
      · simp only [not_isFaceWith _ chars hf]
        simpa using l
    | face =>
      simp only [hk, Bool.and_eq_true] at h
      obtain ⟨st2, e2, l2⟩ := faceBranch_wellFormed st chars hk h.1
      obtain ⟨f1, f2, f3⟩ := faceBranch_frame st st2 chars e2
      obtain ⟨st1, e, l⟩ := ih st2 (by rw [f1, f2, f3]; exact h.2)
      refine ⟨st1, ?_, ?_⟩
      · simp only [parseLoop, processLine_face sc st chars hk, e2]
        exact e
      · rw [l, l2]
        omega
    | other =>
      simp only [hk] at h
      have hf : classify chars ≠ LineKind.face := by simp [hk]
      obtain ⟨st1, e, l⟩ := ih st h
      refine ⟨st1, ?_, ?_⟩
      · simp only [parseLoop, processLine_other sc st chars hk]
        exact e
      · simp only [not_isFaceWith _ chars hf]
        simpa using l

end WellFormed

/-! ### The loop on a whole text -/

section Whole

variable {F : Type} [One F] [Neg F] [Mul F] [Sub F]

/-- Running the loop over the lines before a point of a well-formed text succeeds, leaves
as many positions, UVs and normals as there were `v`, `vt`, `vn` lines, and the rest of the
text is well formed from there. -/
theorem parseLoop_wellFormed_split (sc : FloatScanner F) (before rest : List (List Char)) :
    ∀ st : ParseState F,
      wellFormedFrom st.positions.length st.uvs.length st.normals.length (before ++ rest)
        = true →
      ∃ st1, parseLoop sc before st = some st1 ∧
        wellFormedFrom st1.positions.length st1.uvs.length st1.normals.length rest = true := by
  induction before with
  | nil =>
    intro st h
    exact ⟨st, rfl, h⟩
  | cons chars more ih =>
    intro st h
    simp only [List.cons_append] at h
    unfold wellFormedFrom at h
    cases hk : classify chars with
    | normal =>
      simp only [hk] at h
      obtain ⟨st1, e, l⟩ := ih { st with normals :=
        st.normals ++ [sc.vec3 "vn %f %f %f" (cstr chars)] } (by simpa using h)
      exact ⟨st1, by simp only [parseLoop, processLine_normal sc st chars hk]; exact e, l⟩
    | uv =>
      simp only [hk] at h
      obtain ⟨st1, e, l⟩ := ih { st with uvs :=
        st.uvs ++ [sc.vec2 "vt %f %f" (cstr chars)] } (by simpa using h)
      exact ⟨st1, by simp only [parseLoop, processLine_uv sc st chars hk]; exact e, l⟩
    | position =>
      simp only [hk] at h
      obtain ⟨st1, e, l⟩ := ih { st with positions :=
        st.positions ++ [sc.vec3 "v %f %f %f" (cstr chars)] } (by simpa using h)
      exact ⟨st1, by simp only [parseLoop, processLine_position sc st chars hk]; exact e, l⟩
    | face =>
      simp only [hk, Bool.and_eq_true] at h
      obtain ⟨st2, e2, _⟩ := faceBranch_wellFormed st chars hk h.1
      obtain ⟨f1, f2, f3⟩ := faceBranch_frame st st2 chars e2
      obtain ⟨st1, e, l⟩ := ih st2 (by rw [f1, f2, f3]; exact h.2)
      exact ⟨st1, by simp only [parseLoop, processLine_face sc st chars hk, e2]; exact e, l⟩
    | other =>
      simp only [hk] at h
      obtain ⟨st1, e, l⟩ := ih st h
      exact ⟨st1, by simp only [parseLoop, processLine_other sc st chars hk]; exact e, l⟩

end Whole

/-! ### Lines that do not fit the buffer -/

theorem getlines_shape (text : List Char) :
    ∀ chars : List Char, chars.length ≤ 99 →
      getlines chars text = (text.splitOnP (· == '\n')).modifyHead (chars ++ ·) ∨
      ∃ before l after,
        (text.splitOnP (· == '\n')).modifyHead (chars ++ ·) = before ++ l :: after ∧
        100 ≤ l.length ∧ getlines chars text = before ++ [l.take 99] := by
  induction text with
  | nil =>
    intro chars _
    left
    simp [getlines, List.splitOnP_nil]
  | cons c rest ih =>
    intro chars hlen
    rw [List.splitOnP_cons]
    by_cases hc : c = '\n'
    · subst hc
      have hid : (List.splitOnP (· == '\n') rest).modifyHead ([] ++ ·) =
          List.splitOnP (· == '\n') rest := by
        cases List.splitOnP (· == '\n') rest <;> simp
      simp only [beq_self_eq_true, if_true, List.modifyHead_cons, List.append_nil, getlines]
      rcases ih [] (by simp) with h | ⟨before, l, after, h1, h2, h3⟩
      · left
        rw [h, hid]
      · right
        rw [hid] at h1
        exact ⟨chars :: before, l, after, by rw [h1]; rfl, h2, by rw [h3]; rfl⟩
    · have hb : (c == '\n') = false := by simpa using hc
      obtain ⟨hd, tl, hsplit⟩ : ∃ hd tl, List.splitOnP (· == '\n') rest = hd :: tl := by
        cases hs : List.splitOnP (· == '\n') rest with
        | nil => exact absurd hs (List.splitOnP_ne_nil _ _)
        | cons hd tl => exact ⟨hd, tl, rfl⟩
      simp only [hb, hsplit, Bool.false_eq_true, if_false, List.modifyHead_cons, getlines, hc]
      by_cases hfull : 99 ≤ chars.length
      · right
        have h99 : chars.length = 99 := by omega
        refine ⟨[], chars ++ c :: hd, tl, rfl, ?_, ?_⟩
        · simp only [List.length_append, List.length_cons]
          omega
        · simp only [hfull, if_true, List.nil_append]
          rw [← h99, List.take_left]
      · simp only [hfull, if_false]
        have h := ih (chars ++ [c]) (by
          simp only [List.length_append, List.length_singleton]; omega)
        rw [hsplit] at h
        simp only [List.modifyHead_cons, List.append_assoc, List.singleton_append] at h
        exact h

/-- The loop body sees either all lines of the text, or the lines before the first one of
100 characters or more followed by the first 99 characters of that line. -/
theorem getlines_cases (text : List Char) :
    getlines [] text = textLines text ∨
    ∃ before l after, textLines text = before ++ l :: after ∧ 100 ≤ l.length ∧
      getlines [] text = before ++ [l.take 99] := by
  have hid : ∀ L : List (List Char), L.modifyHead ([] ++ ·) = L := by
    intro L; cases L <;> simp
  have h := getlines_shape text [] (by simp)
  rw [hid] at h
  exact h

theorem classify_take (l : List Char) (h : 100 ≤ l.length) :
    classify (l.take 99) = classify l := by
  match l, h with
  | [], h => simp at h
  | [_], h => simp at h
  | c0 :: c1 :: r, _ => simp [classify]

theorem wellFormedFrom_truncate (before after : List (List Char)) (l l2 : List Char)
    (hsame : classify l2 = classify l) (hnot : classify l ≠ LineKind.face) :
    ∀ np nt nn, wellFormedFrom np nt nn (before ++ l :: after) = true →
      wellFormedFrom np nt nn (before ++ [l2]) = true := by
  induction before with
  | nil =>
    intro np nt nn _
    simp only [List.nil_append, wellFormedFrom, hsame]
    cases hk : classify l with
    | face => exact absurd hk hnot
    | normal => rfl
    | uv => rfl
    | position => rfl
    | other => rfl
  | cons chars more ih =>
    intro np nt nn h
    simp only [List.cons_append, wellFormedFrom] at h ⊢
    cases hk : classify chars with
    | face =>
      simp only [hk, Bool.and_eq_true] at h ⊢
      exact ⟨h.1, ih _ _ _ h.2⟩
    | normal =>
      simp only [hk] at h ⊢
      exact ih _ _ _ h
    | uv =>
      simp only [hk] at h ⊢
      exact ih _ _ _ h
    | position =>
      simp only [hk] at h ⊢
      exact ih _ _ _ h
    | other =>
      simp only [hk] at h ⊢
      exact ih _ _ _ h

/-- When the face lines of a well-formed text are shorter than 100 characters, the lines
the loop body sees are well formed too. -/
theorem wellFormedFrom_getlines (text : List Char)
    (hlen : ∀ l ∈ textLines text, classify l = LineKind.face → l.length < 100)
    (hwf : wellFormedFrom 0 0 0 (textLines text) = true) :
    wellFormedFrom 0 0 0 (getlines [] text) = true := by
  rcases getlines_cases text with h | ⟨before, l, after, h1, h2, h3⟩
  · rw [h]
    exact hwf
  · rw [h3]
    rw [h1] at hwf
    have hnot : classify l ≠ LineKind.face := by
      intro hk
      have := hlen l (by rw [h1]; simp) hk
      omega
    exact wellFormedFrom_truncate before after l (l.take 99) (classify_take l h2) hnot
      0 0 0 hwf

/-- What well-formedness of a face line says about the scan: three or four complete
corners, every one of them in range. -/
theorem faceWellFormed_corners (np nt nn : Nat) (chars : List Char)
    (h : faceWellFormed np nt nn chars = true) :
    ∃ facesRead i, sscanfFace (cstr chars) = some (facesRead, i) ∧
      (∀ k ∈ i, k < UINT_MOD) ∧
      ((corners chars = 3 ∧ facesRead ≠ 12) ∨ (corners chars = 4 ∧ facesRead = 12)) ∧
      ∀ c, c < corners chars → cornerInRange np nt nn i (3 * c) = true := by
  unfold faceWellFormed at h
  split at h
  · simp at h
  · rename_i facesRead i hs
    obtain ⟨hlt, hlen, hn⟩ := sscanfFace_spec _ _ _ hs
    simp only [Bool.and_eq_true, Bool.or_eq_true, decide_eq_true_eq] at h
    obtain ⟨⟨⟨h0, h3⟩, h6⟩, h9⟩ := h
    have hlen9 : 9 ≤ i.length := by
      unfold cornerInRange at h6
      split at h6
      · rename_i hi8
        have := (List.getElem?_eq_some_iff.mp hi8).1
        omega
      · simp at h6
    have hfr : facesRead = (i.length : Int) := by
      rcases hn with hn | ⟨_, hn⟩
      · exact hn
      · rw [hn] at hlen9
        simp at hlen9
    refine ⟨facesRead, i, hs, hlt, ?_⟩
    by_cases h12 : facesRead = 12
    · have hc : corners chars = 4 := by simp [corners, hs, h12]
      refine ⟨Or.inr ⟨hc, h12⟩, ?_⟩
      intro c hlt4
      rw [hc] at hlt4
      have h9b : cornerInRange np nt nn i 9 = true := by
        rcases h9 with h9 | h9
        · exact absurd h12 h9
        · exact h9
      interval_cases c
      · exact h0
      · exact h3
      · exact h6
      · exact h9b
    · have hc : corners chars = 3 := by
        simp only [corners, hs, hfr, Int.toNat_ofNat]
        have : i.length ≠ 12 := by
          intro h; apply h12; rw [hfr, h]; rfl
        omega
      refine ⟨Or.inl ⟨hc, h12⟩, ?_⟩
      intro c hlt3
      rw [hc] at hlt3
      interval_cases c
      · exact h0
      · exact h3
      · exact h6

/-! ### Order and contents of the emitted vertices -/

section Emitted

variable {F : Type} [One F] [Neg F] [Mul F] [Sub F]

theorem processLine_verts (sc : FloatScanner F) (st st1 : ParseState F) (chars : List Char)
    (h : processLine sc st chars = some st1) : ∃ later, st1.verts = st.verts ++ later := by
  cases hk : classify chars with
  | normal =>
    rw [processLine_normal sc st chars hk] at h
    simp only [Option.some.injEq] at h
    subst h
    exact ⟨[], by simp⟩
  | uv =>
    rw [processLine_uv sc st chars hk] at h
    simp only [Option.some.injEq] at h
    subst h
    exact ⟨[], by simp⟩
  | position =>
    rw [processLine_position sc st chars hk] at h
    simp only [Option.some.injEq] at h
    subst h
    exact ⟨[], by simp⟩
  | face =>
    rw [processLine_face sc st chars hk] at h
    obtain ⟨_, _, v1, v2, v3, _, _, _, _, hcase⟩ := faceBranch_eq_some st st1 chars h
    rcases hcase with ⟨_, rfl⟩ | ⟨_, v4, _, rfl⟩
    · exact ⟨_, rfl⟩
    · exact ⟨[flip v1, flip v3, flip v2] ++ [flip v1, flip v4, flip v3], by
        simp [pushTriangle]⟩
  | other =>
    rw [processLine_other sc st chars hk] at h
    simp only [Option.some.injEq] at h
    subst h
    exact ⟨[], by simp⟩

theorem parseLoop_verts (sc : FloatScanner F) (lines : List (List Char)) :
    ∀ st st1 : ParseState F, parseLoop sc lines st = some st1 →
      ∃ later, st1.verts = st.verts ++ later := by
  induction lines with
  | nil =>
    intro st st1 h
    simp only [parseLoop, Option.some.injEq] at h
    subst h
    exact ⟨[], by simp⟩
  | cons chars more ih =>
    intro st st1 h
    simp only [parseLoop] at h
    split at h
    · simp at h
    · rename_i st2 h2
      obtain ⟨l1, e1⟩ := processLine_verts sc st st2 chars h2
      obtain ⟨l2, e2⟩ := ih st2 st1 h
      exact ⟨l1 ++ l2, by rw [e2, e1, List.append_assoc]⟩

theorem parseLoop_split (sc : FloatScanner F) (before after : List (List Char))
    (chars : List Char) (st0 final : ParseState F)
    (h : parseLoop sc (before ++ chars :: after) st0 = some final) :
    ∃ st st1, parseLoop sc before st0 = some st ∧ processLine sc st chars = some st1 ∧
      parseLoop sc after st1 = some final := by
  rw [parseLoop_append] at h
  obtain ⟨st, hst, h2⟩ := Option.bind_eq_some.mp h
  simp only [parseLoop] at h2
  split at h2
  · simp at h2
  · rename_i st1 h1
    exact ⟨st, st1, hst, h1, h2⟩

/-- The loop stores the scanned `v`, `vt` and `vn` lines in file order. -/
theorem parseLoop_collects (sc : FloatScanner F) (lines : List (List Char)) :
    ∀ st st1 : ParseState F, parseLoop sc lines st = some st1 →
      st1.positions = st.positions ++
        (linesOfKind LineKind.position lines).map (fun l => sc.vec3 "v %f %f %f" (cstr l)) ∧
      st1.uvs = st.uvs ++
        (linesOfKind LineKind.uv lines).map (fun l => sc.vec2 "vt %f %f" (cstr l)) ∧
      st1.normals = st.normals ++
        (linesOfKind LineKind.normal lines).map (fun l => sc.vec3 "vn %f %f %f" (cstr l)) := by
  induction lines with
  | nil =>
    intro st st1 h
    simp only [parseLoop, Option.some.injEq] at h
    subst h
    simp [linesOfKind]
  | cons chars more ih =>
    intro st st1 h
    simp only [parseLoop] at h
    split at h
    · simp at h
    · rename_i st2 h2
      obtain ⟨a, b, c⟩ := ih st2 st1 h
      cases hk : classify chars with
      | normal =>
        rw [processLine_normal sc st chars hk] at h2
        simp only [Option.some.injEq] at h2
        subst h2
        simp [a, b, c, linesOfKind, List.filter_cons, hk]
      | uv =>
        rw [processLine_uv sc st chars hk] at h2
        simp only [Option.some.injEq] at h2
        subst h2
        simp [a, b, c, linesOfKind, List.filter_cons, hk]
      | position =>
        rw [processLine_position sc st chars hk] at h2
        simp only [Option.some.injEq] at h2
        subst h2
        simp [a, b, c, linesOfKind, List.filter_cons, hk]
      | face =>
        rw [processLine_face sc st chars hk] at h2
        obtain ⟨f1, f2, f3⟩ := faceBranch_frame st st2 chars h2
        simp [a, b, c, f1, f2, f3, linesOfKind, List.filter_cons, hk]
      | other =>
        rw [processLine_other sc st chars hk] at h2
        simp only [Option.some.injEq] at h2
        subst h2
        simp [a, b, c, linesOfKind, List.filter_cons, hk]

end Emitted

theorem fetch_eq_some {α : Type} (xs : List α) (i : List Nat) (j : Nat) (x : α)
    (h : fetch xs i j = some x) : ∃ k, i[j]? = some k ∧ xs[sub1 k]? = some x := by
  unfold fetch at h
  split at h
  · simp at h
  · rename_i k hk
    exact ⟨k, hk, h⟩

theorem lookupVertex_eq_some {F : Type} (st : ParseState F) (i : List Nat) (j : Nat)
    (v : Vertex F) (h : lookupVertex st i j = some v) :
    ∃ p t n, i[j]? = some p ∧ i[j + 1]? = some t ∧ i[j + 2]? = some n ∧
      st.positions[sub1 p]? = some v.Position ∧ st.uvs[sub1 t]? = some v.UV ∧
      st.normals[sub1 n]? = some v.Normal := by
  unfold lookupVertex at h
  split at h
  · rename_i P U N hp ht hn
    simp only [Option.some.injEq] at h
    subst h
    obtain ⟨p, hp1, hp2⟩ := fetch_eq_some _ _ _ _ hp
    obtain ⟨t, ht1, ht2⟩ := fetch_eq_some _ _ _ _ ht
    obtain ⟨n, hn1, hn2⟩ := fetch_eq_some _ _ _ _ hn
    exact ⟨p, t, n, hp1, ht1, hn1, hp2, ht2, hn2⟩
  · simp at h

/-- A completed face branch read at least nine values: `facesRead` is between 9 and 12 and
the line has three corners exactly when `facesRead` is not 12. -/
theorem corners_of_lookup {F : Type} (st : ParseState F) (chars : List Char)
    (facesRead : Int) (i : List Nat) (v3 : Vertex F)
    (hs : sscanfFace (cstr chars) = some (facesRead, i))
    (h3 : lookupVertex st i 6 = some v3) :
    (facesRead ≠ 12 → corners chars = 3) ∧ (facesRead = 12 → corners chars = 4) := by
  obtain ⟨_, hlen, hn⟩ := sscanfFace_spec _ _ _ hs
  obtain ⟨_, _, n, _, _, hi8, _⟩ := lookupVertex_eq_some st i 6 v3 h3
  have hlen9 : 9 ≤ i.length := by
    have := (List.getElem?_eq_some_iff.mp hi8).1
    omega
  have hfr : facesRead = (i.length : Int) := by
    rcases hn with hn | ⟨_, hn⟩
    · exact hn
    · rw [hn] at hlen9
      simp at hlen9
  constructor
  · intro h12
    simp only [corners, hs, hfr, Int.toNat_ofNat]
    have : i.length ≠ 12 := by
      intro h; apply h12; rw [hfr, h]; rfl
    omega
  · intro h12
    simp [corners, hs, h12]

/-- In a run of the loop over line buffers that completes, a face buffer appends its
vertices right after all vertices of the buffers before it and before those of the buffers
after it, as one triangle `(c1, c3, c2)` or two, `(c1, c3, c2, c1, c4, c3)`. -/
theorem winding_order_of_run {F : Type} [One F] [Neg F] [Mul F] [Sub F]
    (sc : FloatScanner F) (before after : List (List Char)) (chars : List Char)
    (final : ParseState F)
    (hk : classify chars = LineKind.face)
    (hrun : parseLoop sc (before ++ chars :: after) (ParseState.initial F) = some final) :
    ∃ st st1 facesRead i c1 c2 c3,
      parseLoop sc before (ParseState.initial F) = some st ∧
      processLine sc st chars = some st1 ∧
      sscanfFace (cstr chars) = some (facesRead, i) ∧
      (lookupVertex st i 0).map flip = some c1 ∧
      (lookupVertex st i 3).map flip = some c2 ∧
      (lookupVertex st i 6).map flip = some c3 ∧
      ((corners chars = 3 ∧ st1.verts = st.verts ++ [c1, c3, c2]) ∨
       (corners chars = 4 ∧ ∃ c4, (lookupVertex st i 9).map flip = some c4 ∧
          st1.verts = st.verts ++ [c1, c3, c2, c1, c4, c3])) ∧
      ∃ later, final.verts = st1.verts ++ later := by
  obtain ⟨st, st1, hst, h1, hafter⟩ := parseLoop_split sc before after chars _ final hrun
  have hfb := h1
  rw [processLine_face sc st chars hk] at hfb
  obtain ⟨facesRead, i, v1, v2, v3, hs, e1, e2, e3, hcase⟩ :=
    faceBranch_eq_some st st1 chars hfb
  obtain ⟨hc3, hc4⟩ := corners_of_lookup st chars facesRead i v3 hs e3
  refine ⟨st, st1, facesRead, i, flip v1, flip v2, flip v3, hst, h1, hs,
    by simp [e1], by simp [e2], by simp [e3], ?_, parseLoop_verts sc after st1 final hafter⟩
  rcases hcase with ⟨h12, rfl⟩ | ⟨h12, v4, e4, rfl⟩
  · exact Or.inl ⟨hc3 h12, rfl⟩
  · exact Or.inr ⟨hc4 h12, flip v4, by simp [e4], by simp [pushTriangle]⟩

/-- A well-formed text whose lines are each shorter than 100 characters is read line by
line to its end. -/
theorem run_of_wellFormed {F : Type} [One F] [Neg F] [Mul F] [Sub F]
    (sc : FloatScanner F) (text : List Char)
    (hlen : ∀ l ∈ textLines text, l.length < 100)
    (hwf : wellFormedFrom 0 0 0 (textLines text) = true) :
    ∃ final, parseText sc text = some final ∧
      parseLoop sc (textLines text) (ParseState.initial F) = some final := by
  obtain ⟨final, hfinal, _⟩ :=
    parseLoop_wellFormed sc (textLines text) (ParseState.initial F) hwf
  refine ⟨final, ?_, hfinal⟩
  unfold parseText
  rw [getlines_eq_textLines text hlen]
  exact hfinal

theorem nth1_map {α β : Type} (f : α → β) (xs : List α) (k : Nat) (y : β)
    (h1 : 1 ≤ k) (h2 : k < UINT_MOD) (h : (xs.map f)[sub1 k]? = some y) :
    ∃ x, nth1 xs k = some x ∧ f x = y := by
  rw [sub1_eq k h1 h2, List.getElem?_map] at h
  obtain ⟨x, hx, hy⟩ := Option.map_eq_some'.mp h
  refine ⟨x, ?_, hy⟩
  unfold nth1
  rw [if_neg (by omega)]
  exact hx

/-- A successful lookup for a corner with 1-based indices, in the state reached after the
lines `before`, yields after the flips the vertex described by `cornerVertex`. -/
theorem cornerVertex_of_lookup {F : Type} [One F] [Neg F] [Mul F] [Sub F]
    (sc : FloatScanner F) (before : List (List Char)) (st : ParseState F)
    (hst : parseLoop sc before (ParseState.initial F) = some st)
    (i : List Nat) (j : Nat) (v : Vertex F)
    (hlt : ∀ k ∈ i, k < UINT_MOD)
    (hone : ∀ r k, r < 3 → i[j + r]? = some k → 1 ≤ k)
    (h : lookupVertex st i j = some v) :
    cornerVertex sc before i j = some (flip v) := by
  obtain ⟨hp, hu, hn⟩ := parseLoop_collects sc before _ st hst
  simp only [ParseState.initial, List.nil_append] at hp hu hn
  obtain ⟨p, t, n, ip, it, inn, lp, lt, ln⟩ := lookupVertex_eq_some st i j v h
  rw [hp] at lp
  rw [hu] at lt
  rw [hn] at ln
  obtain ⟨xp, xp1, xp2⟩ := nth1_map _ _ p _ (hone 0 p (by decide) ip)
    (hlt p (List.getElem?_mem ip)) lp
  obtain ⟨xt, xt1, xt2⟩ := nth1_map _ _ t _ (hone 1 t (by decide) it)
    (hlt t (List.getElem?_mem it)) lt
  obtain ⟨xn, xn1, xn2⟩ := nth1_map _ _ n _ (hone 2 n (by decide) inn)
    (hlt n (List.getElem?_mem inn)) ln
  simp only [cornerVertex, ip, it, inn, xp1, xt1, xn1, xp2, xt2, xn2, flip]

/-- The indices of an in-range corner are at least 1. -/
theorem cornerInRange_one (np nt nn : Nat) (i : List Nat) (j : Nat)
    (h : cornerInRange np nt nn i j = true) :
    ∀ r k, r < 3 → i[j + r]? = some k → 1 ≤ k := by
  intro r k hr hk
  unfold cornerInRange at h
  split at h
  · rename_i p t n hp ht hn
    simp only [Bool.and_eq_true, decide_eq_true_eq] at h
    obtain ⟨⟨⟨⟨⟨p1, _⟩, t1⟩, _⟩, n1⟩, _⟩ := h
    interval_cases r
    · simp only [Nat.add_zero] at hk
      rw [hp] at hk
      simp only [Option.some.injEq] at hk
      omega
    · rw [ht] at hk
      simp only [Option.some.injEq] at hk
      omega
    · rw [hn] at hk
      simp only [Option.some.injEq] at hk
      omega
  · simp at h

/-- The effect of one run of the loop body on a buffer, by its first characters: `vn`
appends one normal, `vt` one UV, any other `v` one position, each changing nothing else;
`f`, when its branch completes, appends three or six vertices and as many indices and
leaves positions, normals and UVs alone; anything else changes nothing. -/
theorem processLine_effects {F : Type} [One F] [Neg F] [Mul F] [Sub F]
    (sc : FloatScanner F) (st : ParseState F) :
    (∀ r, processLine sc st ('v' :: 'n' :: r) =
      some { st with normals :=
        st.normals ++ [sc.vec3 "vn %f %f %f" (cstr ('v' :: 'n' :: r))] }) ∧
    (∀ r, processLine sc st ('v' :: 't' :: r) =
      some { st with uvs := st.uvs ++ [sc.vec2 "vt %f %f" (cstr ('v' :: 't' :: r))] }) ∧
    (∀ r, r.head? ≠ some 'n' → r.head? ≠ some 't' →
      processLine sc st ('v' :: r) =
        some { st with positions :=
          st.positions ++ [sc.vec3 "v %f %f %f" (cstr ('v' :: r))] }) ∧
    (∀ r st1, processLine sc st ('f' :: r) = some st1 →
      st1.positions = st.positions ∧ st1.normals = st.normals ∧ st1.uvs = st.uvs ∧
      ∃ vs ks, st1.verts = st.verts ++ vs ∧ st1.indices = st.indices ++ ks ∧
        ks.length = vs.length ∧ (vs.length = 3 ∨ vs.length = 6)) ∧
    (∀ chars, chars.head? ≠ some 'v' → chars.head? ≠ some 'f' →
      processLine sc st chars = some st) := by
  refine ⟨?_, ?_, ?_, ?_, ?_⟩
  · intro r
    exact processLine_normal sc st _ (by simp [classify])
  · intro r
    exact processLine_uv sc st _ (by simp [classify])
  · intro r hn ht
    apply processLine_position
    cases r with
    | nil => simp [classify]
    | cons c r2 =>
      simp only [List.head?_cons, ne_eq, Option.some.injEq] at hn ht
      simp [classify, hn, ht]
  · intro r st1 h
    have hk : classify ('f' :: r) = LineKind.face := by
      cases r <;> simp [classify]
    rw [processLine_face sc st _ hk] at h
    obtain ⟨f1, f2, f3⟩ := faceBranch_frame st st1 _ h
    refine ⟨f1, f2, f3, ?_⟩
    obtain ⟨_, _, v1, v2, v3, _, _, _, _, hcase⟩ := faceBranch_eq_some st st1 _ h
    rcases hcase with ⟨_, rfl⟩ | ⟨_, v4, _, rfl⟩
    · exact ⟨_, _, rfl, rfl, rfl, Or.inl rfl⟩
    · exact ⟨[flip v1, flip v3, flip v2, flip v1, flip v4, flip v3], _,
        by simp [pushTriangle], by simp [pushTriangle]; rfl, rfl, Or.inr rfl⟩
  · intro chars hv hf
    apply processLine_other
    match chars, hv, hf with
    | [], _, _ => rfl
    | [c0], hv, hf =>
      simp only [List.head?_cons, ne_eq, Option.some.injEq] at hv hf
      simp [classify, hv, hf]
    | c0 :: c1 :: r, hv, hf =>
      simp only [List.head?_cons, ne_eq, Option.some.injEq] at hv hf
      simp [classify, hv, hf]

/-! ### A text with more than `2 ^ 32` vertices -/

theorem getlines_line (l : List Char) :
    ∀ (chars rest : List Char), '\n' ∉ l → chars.length + l.length ≤ 99 →
      getlines chars (l ++ '\n' :: rest) = (chars ++ l) :: getlines [] rest := by
  induction l with
  | nil =>
    intro chars rest _ _
    simp [getlines]
  | cons c l ih =>
    intro chars rest hmem hlen
    have hc : c ≠ '\n' := by
      intro h
      exact hmem (by simp [h])
    have hl : '\n' ∉ l := by
      intro h
      exact hmem (List.mem_cons_of_mem _ h)
    simp only [List.length_cons] at hlen
    have hnot : ¬ 99 ≤ chars.length := by omega
    have h := ih (chars ++ [c]) rest hl
      (by simp only [List.length_append, List.length_singleton]; omega)
    simp only [List.cons_append, getlines, hc, if_false, hnot, List.append_eq]
    rw [h]
    simp

theorem getlines_repeat_quadLine (n : Nat) :
    getlines [] (repeatText (quadLine ++ ['\n']) n) = List.replicate n quadLine ++ [[]] := by
  induction n with
  | zero => rfl
  | succ n ih =>
    have h : repeatText (quadLine ++ ['\n']) (n + 1) =
        quadLine ++ '\n' :: repeatText (quadLine ++ ['\n']) n := by
      simp [repeatText]
    rw [h, getlines_line quadLine [] _ (by decide) (by decide), ih]
    simp [List.replicate_succ]

theorem getlines_manyQuadsText (n : Nat) :
    getlines [] (manyQuadsText n) =
      ["v 1 2 3".toList, "vt 0 1".toList, "vn 0 0 1".toList] ++
        (List.replicate n quadLine ++ [[]]) := by
  have h : manyQuadsText n = "v 1 2 3".toList ++ '\n' :: ("vt 0 1".toList ++ '\n' ::
      ("vn 0 0 1".toList ++ '\n' :: repeatText (quadLine ++ ['\n']) n)) := rfl
  rw [h, getlines_line _ [] _ (by decide) (by decide),
    getlines_line _ [] _ (by decide) (by decide),
    getlines_line _ [] _ (by decide) (by decide), getlines_repeat_quadLine]
  rfl

theorem wellFormedFrom_quads (n : Nat) :
    wellFormedFrom 1 1 1 (List.replicate n quadLine ++ [[]]) = true := by
  induction n with
  | zero => decide
  | succ n ih =>
    have hk : classify quadLine = LineKind.face := by decide
    have hf : faceWellFormed 1 1 1 quadLine = true := by decide
    simp only [List.replicate_succ, List.cons_append, wellFormedFrom, hk, hf,
      List.append_eq, ih, Bool.and_self]

theorem count_quads (n : Nat) :
    triangleLines (List.replicate n quadLine ++ [[]]) = 0 ∧
      quadLines (List.replicate n quadLine ++ [[]]) = n := by
  have h3 : isFaceWith 3 quadLine = false := by decide
  have h4 : isFaceWith 4 quadLine = true := by decide
  have e3 : isFaceWith 3 [] = false := by decide
  have e4 : isFaceWith 4 [] = false := by decide
  induction n with
  | zero =>
    simp [triangleLines, quadLines, e3, e4]
  | succ n ih =>
    obtain ⟨a, b⟩ := ih
    simp only [triangleLines, quadLines, List.replicate_succ, List.cons_append,
      List.countP_cons, h3, h4] at a b ⊢
    rw [a, b]
    simp

/-- The loop on `manyQuadsText n` completes with `6 * n` vertices. -/
theorem parseText_manyQuadsText (n : Nat) :
    ∃ st, parseText sampleScanner (manyQuadsText n) = some st ∧ st.verts.length = 6 * n := by
  have hhead : parseLoop sampleScanner
      ["v 1 2 3".toList, "vt 0 1".toList, "vn 0 0 1".toList] (ParseState.initial Int) =
      some { positions := [⟨1, 2, 3⟩], normals := [⟨0, 0, 1⟩], uvs := [⟨0, 1⟩], verts := [],
             indices := [], vertCounter := 0 } := by decide
  obtain ⟨st, hst, hlen⟩ := parseLoop_wellFormed sampleScanner
    (List.replicate n quadLine ++ [[]])
    { positions := [⟨1, 2, 3⟩], normals := [⟨0, 0, 1⟩], uvs := [⟨0, 1⟩], verts := [],
      indices := [], vertCounter := 0 } (wellFormedFrom_quads n)
  obtain ⟨a, b⟩ := count_quads n
  rw [a, b] at hlen
  refine ⟨st, ?_, by simpa using hlen⟩
  unfold parseText
  rw [getlines_manyQuadsText, parseLoop_append, hhead]
  exact hst

theorem textLines_manyQuadsText (n : Nat) :
    textLines (manyQuadsText n) =
      ["v 1 2 3".toList, "vt 0 1".toList, "vn 0 0 1".toList] ++
        (List.replicate n quadLine ++ [[]]) := by
  rcases getlines_cases (manyQuadsText n) with h | ⟨before, l, after, _, h2, h3⟩
  · rw [← h]
    exact getlines_manyQuadsText n
  · exfalso
    have hlast := congrArg List.getLast? h3
    rw [getlines_manyQuadsText] at hlast
    simp only [List.getLast?_append, List.getLast?_singleton, Option.or,
      Option.some.injEq] at hlast
    have hl := congrArg List.length hlast
    simp only [List.length_nil, List.length_take] at hl
    omega

/-- The text with `n` quad lines meets every precondition on lines and faces, with no
triangle line and `n` quad lines. -/
theorem manyQuadsText_wellFormed (n : Nat) :
    (∀ l ∈ textLines (manyQuadsText n), l.length < 100) ∧
    wellFormedFrom 0 0 0 (textLines (manyQuadsText n)) = true ∧
    triangleLines (textLines (manyQuadsText n)) = 0 ∧
    quadLines (textLines (manyQuadsText n)) = n := by
  rw [textLines_manyQuadsText]
  obtain ⟨a, b⟩ := count_quads n
  refine ⟨?_, ?_, ?_, ?_⟩
  · intro l hl
    simp only [List.mem_append, List.mem_cons, List.mem_singleton, List.not_mem_nil,
      or_false] at hl
    rcases hl with (hl | hl | hl) | hl | hl
    · rw [hl]; decide
    · rw [hl]; decide
    · rw [hl]; decide
    · rw [(List.mem_replicate.mp hl).2]; decide
    · rw [hl]; decide
  · have h1 : classify "v 1 2 3".toList = LineKind.position := by decide
    have h2 : classify "vt 0 1".toList = LineKind.uv := by decide
    have h3 : classify "vn 0 0 1".toList = LineKind.normal := by decide
    simp only [List.cons_append, List.nil_append, wellFormedFrom, h1, h2, h3]
    exact wellFormedFrom_quads n
  · have h := List.countP_append (isFaceWith 3)
      ["v 1 2 3".toList, "vt 0 1".toList, "vn 0 0 1".toList]
      (List.replicate n quadLine ++ [[]])
    have h0 : List.countP (isFaceWith 3)
        ["v 1 2 3".toList, "vt 0 1".toList, "vn 0 0 1".toList] = 0 := by decide
    unfold triangleLines at a ⊢
    rw [h, h0, a]
  · have h := List.countP_append (isFaceWith 4)
      ["v 1 2 3".toList, "vt 0 1".toList, "vn 0 0 1".toList]
      (List.replicate n quadLine ++ [[]])
    have h0 : List.countP (isFaceWith 4)
        ["v 1 2 3".toList, "vt 0 1".toList, "vn 0 0 1".toList] = 0 := by decide
    unfold quadLines at b ⊢
    rw [h, h0, b]
    omega

/-! ## The properties of the specification -/

/-- C1, amended: for every OBJ text that opens, whose lines are each shorter than 100
characters, whose face lines each have three or four complete corners with in-range
indices, and for which `3 * T + 6 * Q` is below `2 ^ 32`, the constructor completes with
`GetIndexCount() = 3 * T + 6 * Q`; that is also the number of assembled vertices and the
count handed to both buffer helpers. -/
theorem C1_index_count_of_well_formed_text {F : Type} [One F] [Neg F] [Mul F] [Sub F]
    (sizeofVertex : Nat) (sc : FloatScanner F) (device : ID3D11Device F)
    (calls : List (CreateBufferCall F)) (text : List Char)
    (hlen : ∀ l ∈ textLines text, l.length < 100)
    (hwf : wellFormedFrom 0 0 0 (textLines text) = true)
    (hfit : 3 * triangleLines (textLines text) + 6 * quadLines (textLines text) < UINT_MOD) :
    ∃ st w,
      parseText sc text = some st ∧
      Mesh.fromFile sizeofVertex sc device calls (some text) = some w ∧
      st.verts.length = 3 * triangleLines (textLines text) + 6 * quadLines (textLines text) ∧
      st.vertCounter = 3 * triangleLines (textLines text) + 6 * quadLines (textLines text) ∧
      w.mesh.GetIndexCount =
        3 * triangleLines (textLines text) + 6 * quadLines (textLines text) ∧
      w.calls = (CreateIndexBuffer device
        (CreateVertexBuffer sizeofVertex device (fileStart calls) st.verts
          (3 * triangleLines (textLines text) + 6 * quadLines (textLines text)))
        st.indices
        (3 * triangleLines (textLines text) + 6 * quadLines (textLines text))).calls := by
  obtain ⟨st, hst, hlenv⟩ := parseLoop_wellFormed sc (textLines text) (ParseState.initial F) hwf
  have hparse : parseText sc text = some st := by
    unfold parseText
    rw [getlines_eq_textLines text hlen]
    exact hst
  simp only [ParseState.initial, List.length_nil, Nat.zero_add] at hlenv
  obtain ⟨_, hcnt⟩ := parseLoop_aligned sc _ _ _ hst aligned_initial
  have hcnt2 : st.vertCounter =
      3 * triangleLines (textLines text) + 6 * quadLines (textLines text) := by
    rw [hcnt, hlenv]
    exact Nat.mod_eq_of_lt hfit
  have hff := fromFile_some sizeofVertex sc device calls text
  rw [hparse] at hff
  refine ⟨st, _, hparse, hff, hlenv, hcnt2, ?_, ?_⟩
  · simp [Mesh.GetIndexCount, createBuffers, hcnt2]
  · simp only [createBuffers, ← hcnt2]

/-- C1 at the sample text, where one triangle and one quad give nine indices, and at a text
without a face line, where the count is 0 and both helpers are still called. -/
theorem C1_index_count_witness :
    (∀ l ∈ textLines sampleText, l.length < 100) ∧
    wellFormedFrom 0 0 0 (textLines sampleText) = true ∧
    (∃ w, Mesh.fromFile 32 sampleScanner sampleDevice [] (some sampleText) = some w ∧
      w.mesh.GetIndexCount = 9) ∧
    (∃ w, Mesh.fromFile 32 sampleScanner sampleDevice [] (some facelessText) = some w ∧
      w.mesh.GetIndexCount = 0) := by
  refine ⟨by decide, by decide, ?_, ?_⟩
  · obtain ⟨_, w, _, hw, _, _, hc, _⟩ :=
      C1_index_count_of_well_formed_text 32 sampleScanner sampleDevice [] sampleText
        (by decide) (by decide) (by decide)
    have hT : triangleLines (textLines sampleText) = 1 := by decide
    have hQ : quadLines (textLines sampleText) = 1 := by decide
    rw [hT, hQ] at hc
    exact ⟨w, hw, hc⟩
  · obtain ⟨_, w, _, hw, _, _, hc, _⟩ :=
      C1_index_count_of_well_formed_text 32 sampleScanner sampleDevice [] facelessText
        (by decide) (by decide) (by decide)
    have hT : triangleLines (textLines facelessText) = 0 := by decide
    have hQ : quadLines (textLines facelessText) = 0 := by decide
    rw [hT, hQ] at hc
    exact ⟨w, hw, hc⟩

/-- C1 as stated fails once `3 * T + 6 * Q` reaches `2 ^ 32`: the text with 715827883 quad
lines meets every precondition, `3 * T + 6 * Q` is 4294967298, and the constructor leaves
`GetIndexCount() = 2`, because `vertCounter` and `indexCount` are `unsigned int`. -/
theorem C1_index_count_wraps_counterexample :
    (∀ l ∈ textLines (manyQuadsText 715827883), l.length < 100) ∧
    wellFormedFrom 0 0 0 (textLines (manyQuadsText 715827883)) = true ∧
    3 * triangleLines (textLines (manyQuadsText 715827883)) +
      6 * quadLines (textLines (manyQuadsText 715827883)) = 4294967298 ∧
    ∃ w, Mesh.fromFile 32 sampleScanner sampleDevice [] (some (manyQuadsText 715827883))
        = some w ∧ w.mesh.GetIndexCount = 2 := by
  obtain ⟨h1, h2, h3, h4⟩ := manyQuadsText_wellFormed 715827883
  obtain ⟨st, hst, hlen⟩ := parseText_manyQuadsText 715827883
  obtain ⟨_, hc⟩ := parseLoop_aligned sampleScanner _ _ _ hst aligned_initial
  have e : 6 * 715827883 = 4294967298 := by norm_num
  rw [e] at hlen
  have hc2 : st.vertCounter = 2 := by
    rw [hc, hlen]
    decide
  have hff := fromFile_some 32 sampleScanner sampleDevice [] (manyQuadsText 715827883)
  rw [hst] at hff
  refine ⟨h1, h2, by rw [h3, h4], _, hff, ?_⟩
  simp only [Mesh.GetIndexCount, createBuffers]
  exact hc2

/-- C2, amended: in every OBJ text whose lines are each shorter than 100 characters and
whose face lines each have three or four complete corners with in-range indices, the loop
runs to its end and every face line of the text appends its vertices right after all
vertices of the lines before it and before those of the lines after it: with three corners
`c1 c2 c3` it appends `(c1, c3, c2)`, with four corners `c1 c2 c3 c4` exactly
`(c1, c3, c2, c1, c4, c3)`. A corner's vertex is the looked-up one after the flips. -/
theorem C2_winding_order_reversed {F : Type} [One F] [Neg F] [Mul F] [Sub F]
    (sc : FloatScanner F) (text : List Char) (before after : List (List Char))
    (chars : List Char)
    (hlen : ∀ l ∈ textLines text, l.length < 100)
    (hwf : wellFormedFrom 0 0 0 (textLines text) = true)
    (hsplit : textLines text = before ++ chars :: after)
    (hk : classify chars = LineKind.face) :
    ∃ final st st1 facesRead i c1 c2 c3,
      parseText sc text = some final ∧
      parseLoop sc before (ParseState.initial F) = some st ∧
      processLine sc st chars = some st1 ∧
      sscanfFace (cstr chars) = some (facesRead, i) ∧
      (lookupVertex st i 0).map flip = some c1 ∧
      (lookupVertex st i 3).map flip = some c2 ∧
      (lookupVertex st i 6).map flip = some c3 ∧
      ((corners chars = 3 ∧ st1.verts = st.verts ++ [c1, c3, c2]) ∨
       (corners chars = 4 ∧ ∃ c4, (lookupVertex st i 9).map flip = some c4 ∧
          st1.verts = st.verts ++ [c1, c3, c2, c1, c4, c3])) ∧
      ∃ later, final.verts = st1.verts ++ later := by
  obtain ⟨final, hparse, hrun⟩ := run_of_wellFormed sc text hlen hwf
  rw [hsplit] at hrun
  obtain ⟨st, st1, facesRead, i, c1, c2, c3, h⟩ :=
    winding_order_of_run sc before after chars final hk hrun
  exact ⟨final, st, st1, facesRead, i, c1, c2, c3, hparse, h⟩

/-- C2 at the sample text, whose last two lines are a triangle and a quad: the quad
appends six vertices, and the positions of all nine show the order. -/
theorem C2_winding_order_witness :
    (∀ l ∈ textLines sampleText, l.length < 100) ∧
    wellFormedFrom 0 0 0 (textLines sampleText) = true ∧
    ∃ st st1 : ParseState Int,
      parseLoop sampleScanner ((textLines sampleText).take 9) (ParseState.initial Int)
        = some st ∧
      processLine sampleScanner st ("f 1/1/1 2/2/1 3/1/1 4/2/1".toList) = some st1 ∧
      st1.verts.length = st.verts.length + 6 ∧
      (parseText sampleScanner sampleText).map
        (fun s => s.verts.map (fun v => v.Position.x)) = some [1, 7, 4, 1, 7, 4, 1, 2, 7] := by
  refine ⟨by decide, by decide, ?_⟩
  obtain ⟨_, st, st1, _, _, c1, c2, c3, _, h1, h2, _, _, _, _, hcase, _⟩ :=
    C2_winding_order_reversed sampleScanner sampleText ((textLines sampleText).take 9) [[]]
      ("f 1/1/1 2/2/1 3/1/1 4/2/1".toList) (by decide) (by decide) (by decide) (by decide)
  refine ⟨st, st1, h1, h2, ?_, by decide⟩
  have hc : corners "f 1/1/1 2/2/1 3/1/1 4/2/1".toList = 4 := by decide
  rcases hcase with ⟨h3, _⟩ | ⟨_, c4, _, hv⟩
  · rw [hc] at h3
    exact absurd h3 (by decide)
  · rw [hv]
    simp

set_option maxRecDepth 20000 in
/-- C2 as stated fails on a face line of 100 characters or more: the last line of
`longQuadText` is a face line of 109 characters with four complete, in-range corners, but
the loop body sees only its first 99 characters and appends the one triangle
`(c1, c3, c2)`. -/
theorem C2_long_quad_line_counterexample :
    wellFormedFrom 0 0 0 (textLines longQuadText) = true ∧
    (textLines longQuadText)[7]?.map (fun l => (classify l, l.length, corners l)) =
      some (LineKind.face, 109, 4) ∧
    (parseText sampleScanner longQuadText).map
      (fun s => s.verts.map (fun v => v.Position.x)) = some [1, 7, 4] := by
  refine ⟨by decide, by decide, by decide⟩

/-- C3, amended: in every OBJ text whose lines are each shorter than 100 characters and
whose face lines each have three or four complete corners with in-range indices, the loop
runs to its end and the vertices a face line of the text appended are, in order, those of
`cornerVertex` for its corners `p/t/n`: each has position `(x, y, z * -1)` of the `p`-th
`v` line, UV `(u, 1 - v)` of the `t`-th `vt` line and normal `(x, y, z * -1)` of the `n`-th
`vn` line, with the flips applied once, also for the corners `c1` and `c3` that the two
triangles of a quad share. -/
theorem C3_emitted_vertex_contents {F : Type} [One F] [Neg F] [Mul F] [Sub F]
    (sc : FloatScanner F) (text : List Char) (before after : List (List Char))
    (chars : List Char)
    (hlen : ∀ l ∈ textLines text, l.length < 100)
    (hwf : wellFormedFrom 0 0 0 (textLines text) = true)
    (hsplit : textLines text = before ++ chars :: after)
    (hk : classify chars = LineKind.face) :
    ∃ final st st1 facesRead i e1 e2 e3,
      parseText sc text = some final ∧
      parseLoop sc before (ParseState.initial F) = some st ∧
      parseLoop sc (before ++ [chars]) (ParseState.initial F) = some st1 ∧
      sscanfFace (cstr chars) = some (facesRead, i) ∧
      cornerVertex sc before i 0 = some e1 ∧
      cornerVertex sc before i 3 = some e2 ∧
      cornerVertex sc before i 6 = some e3 ∧
      ((facesRead ≠ 12 ∧ st1.verts = st.verts ++ [e1, e3, e2]) ∨
       (facesRead = 12 ∧ ∃ e4, cornerVertex sc before i 9 = some e4 ∧
          st1.verts = st.verts ++ [e1, e3, e2, e1, e4, e3])) ∧
      ∃ later, final.verts = st1.verts ++ later := by
  obtain ⟨final, hparse, hrun⟩ := run_of_wellFormed sc text hlen hwf
  rw [hsplit] at hrun hwf
  obtain ⟨st, st1, hst, h1, hafter⟩ := parseLoop_split sc before after chars _ final hrun
  obtain ⟨st2, hst2, hrest⟩ :=
    parseLoop_wellFormed_split sc before (chars :: after) (ParseState.initial F) hwf
  rw [hst] at hst2
  simp only [Option.some.injEq] at hst2
  subst hst2
  unfold wellFormedFrom at hrest
  simp only [hk, Bool.and_eq_true] at hrest
  obtain ⟨facesRead, i, hs, hlt, hc, hall⟩ := faceWellFormed_corners _ _ _ chars hrest.1
  have hfb := h1
  rw [processLine_face sc st chars hk] at hfb
  obtain ⟨facesRead2, i2, v1, v2, v3, hs2, e1, e2, e3, hcase⟩ :=
    faceBranch_eq_some st st1 chars hfb
  rw [hs] at hs2
  simp only [Option.some.injEq, Prod.mk.injEq] at hs2
  obtain ⟨rfl, rfl⟩ := hs2
  have h3c : 3 ≤ corners chars := by
    rcases hc with hc | hc <;> omega
  have c := cornerVertex_of_lookup sc before st hst i
  have o0 := cornerInRange_one _ _ _ i (3 * 0) (hall 0 (by omega))
  have o1 := cornerInRange_one _ _ _ i (3 * 1) (hall 1 (by omega))
  have o2 := cornerInRange_one _ _ _ i (3 * 2) (hall 2 (by omega))
  have hstep : parseLoop sc (before ++ [chars]) (ParseState.initial F) = some st1 := by
    rw [parseLoop_append, hst]
    simp only [Option.some_bind, parseLoop, h1]
  refine ⟨final, st, st1, facesRead, i, flip v1, flip v2, flip v3, hparse, hst, hstep, hs,
    c 0 v1 hlt o0 e1, c 3 v2 hlt o1 e2, c 6 v3 hlt o2 e3, ?_,
    parseLoop_verts sc after st1 final hafter⟩
  rcases hcase with ⟨h12, rfl⟩ | ⟨h12, v4, e4, rfl⟩
  · exact Or.inl ⟨h12, rfl⟩
  · have h4c : corners chars = 4 := by
      rcases hc with hc | hc
      · exact absurd h12 hc.2
      · exact hc.1
    have o3 := cornerInRange_one _ _ _ i (3 * 3) (hall 3 (by omega))
    exact Or.inr ⟨h12, flip v4, c 9 v4 hlt o3 e4, by simp [pushTriangle]⟩

/-- C3 at the quad of the sample text: the six emitted vertices, with the shared corners
flipped once. -/
theorem C3_emitted_vertex_witness :
    (∀ l ∈ textLines sampleText, l.length < 100) ∧
    wellFormedFrom 0 0 0 (textLines sampleText) = true ∧
    ∃ st st1 : ParseState Int,
      parseLoop sampleScanner ((textLines sampleText).take 9) (ParseState.initial Int)
        = some st ∧
      parseLoop sampleScanner ((textLines sampleText).take 9 ++
        ["f 1/1/1 2/2/1 3/1/1 4/2/1".toList]) (ParseState.initial Int) = some st1 ∧
      st1.verts = st.verts ++
        [ ⟨⟨1, 2, -3⟩, ⟨0, 0⟩, ⟨0, 0, -1⟩⟩, ⟨⟨7, 8, -9⟩, ⟨0, 0⟩, ⟨0, 0, -1⟩⟩,
          ⟨⟨4, 5, -6⟩, ⟨1, 1⟩, ⟨0, 0, -1⟩⟩, ⟨⟨1, 2, -3⟩, ⟨0, 0⟩, ⟨0, 0, -1⟩⟩,
          ⟨⟨2, 4, -6⟩, ⟨1, 1⟩, ⟨0, 0, -1⟩⟩, ⟨⟨7, 8, -9⟩, ⟨0, 0⟩, ⟨0, 0, -1⟩⟩ ] := by
  refine ⟨by decide, by decide, ?_⟩
  obtain ⟨_, st, st1, facesRead, i, e1, e2, e3, _, hst, hst1, hs, h1, h2, h3, hcase, _⟩ :=
    C3_emitted_vertex_contents sampleScanner sampleText ((textLines sampleText).take 9) [[]]
      ("f 1/1/1 2/2/1 3/1/1 4/2/1".toList) (by decide) (by decide) (by decide) (by decide)
  have hscan : sscanfFace (cstr "f 1/1/1 2/2/1 3/1/1 4/2/1".toList) =
      some (12, [1, 1, 1, 2, 2, 1, 3, 1, 1, 4, 2, 1]) := by decide
  rw [hscan] at hs
  simp only [Option.some.injEq, Prod.mk.injEq] at hs
  obtain ⟨rfl, rfl⟩ := hs
  refine ⟨st, st1, hst, hst1, ?_⟩
  rcases hcase with ⟨h12, _⟩ | ⟨_, e4, h4, hv⟩
  · exact absurd rfl h12
  · rw [hv]
    have g1 : cornerVertex sampleScanner ((textLines sampleText).take 9)
        [1, 1, 1, 2, 2, 1, 3, 1, 1, 4, 2, 1] 0 = some ⟨⟨1, 2, -3⟩, ⟨0, 0⟩, ⟨0, 0, -1⟩⟩ := by
      decide
    have g2 : cornerVertex sampleScanner ((textLines sampleText).take 9)
        [1, 1, 1, 2, 2, 1, 3, 1, 1, 4, 2, 1] 3 = some ⟨⟨4, 5, -6⟩, ⟨1, 1⟩, ⟨0, 0, -1⟩⟩ := by
      decide
    have g3 : cornerVertex sampleScanner ((textLines sampleText).take 9)
        [1, 1, 1, 2, 2, 1, 3, 1, 1, 4, 2, 1] 6 = some ⟨⟨7, 8, -9⟩, ⟨0, 0⟩, ⟨0, 0, -1⟩⟩ := by
      decide
    have g4 : cornerVertex sampleScanner ((textLines sampleText).take 9)
        [1, 1, 1, 2, 2, 1, 3, 1, 1, 4, 2, 1] 9 = some ⟨⟨2, 4, -6⟩, ⟨1, 1⟩, ⟨0, 0, -1⟩⟩ := by
      decide
    rw [g1] at h1
    rw [g2] at h2
    rw [g3] at h3
    rw [g4] at h4
    simp only [Option.some.injEq] at h1 h2 h3 h4
    subst h1 h2 h3 h4
    rfl

set_option maxRecDepth 20000 in
/-- C3 as stated fails on a face line of 100 characters or more: the face line of
`truncatedIndexText` is 100 characters long and its third corner is `3/1/12`, whose vertex
is to have the normal of the twelfth `vn` line, `(1, 0, 0 * -1)`; the loop body sees only
the first 99 characters, reads the corner as `3/1/1`, and every emitted vertex has the
normal of the first `vn` line, `(0, 0, 1 * -1)`. -/
theorem C3_truncated_index_counterexample :
    wellFormedFrom 0 0 0 (textLines truncatedIndexText) = true ∧
    (textLines truncatedIndexText)[16]? = some truncatedFaceLine ∧
    truncatedFaceLine.length = 100 ∧
    sscanfFace (cstr truncatedFaceLine) = some (9, [1, 1, 1, 2, 1, 1, 3, 1, 12]) ∧
    (cornerVertex sampleScanner ((textLines truncatedIndexText).take 16)
      [1, 1, 1, 2, 1, 1, 3, 1, 12] 6).map (fun v => v.Normal) = some ⟨1, 0, 0⟩ ∧
    (parseText sampleScanner truncatedIndexText).map
      (fun s => s.verts.map (fun v => v.Normal)) =
        some [⟨0, 0, -1⟩, ⟨0, 0, -1⟩, ⟨0, 0, -1⟩] := by
  refine ⟨by decide, by decide, by decide, by decide, by decide, by decide⟩

/-- C4: when the file cannot be opened the constructor returns normally with an index count
of 0, both buffer handles null, and the device has received no further `CreateBuffer`
call. -/
theorem C4_failed_open_leaves_mesh_empty {F : Type} [One F] [Neg F] [Mul F] [Sub F]
    (sizeofVertex : Nat) (sc : FloatScanner F) (device : ID3D11Device F)
    (calls : List (CreateBufferCall F)) :
    ∃ w, Mesh.fromFile sizeofVertex sc device calls none = some w ∧
      w.mesh.GetIndexCount = 0 ∧ w.mesh.GetVertexBuffer = none ∧
      w.mesh.GetIndexBuffer = none ∧ w.calls = calls := by
  exact ⟨fileStart calls, rfl, rfl, rfl, rfl, rfl⟩

/-- C5: in both constructors the two handles are null before the first helper call and the
index-buffer handle is still null before `CreateIndexBuffer`; after construction a handle is
non-null exactly when the device's `CreateBuffer` call for it stored that handle. For the
constructor from a file: a failed open returns with both handles null and no call; an
opened file runs the loop and then both helpers, and the statement holds for whatever
locals `st` the loop leaves. -/
theorem C5_handles_null_until_created {F : Type} [One F] [Neg F] [Mul F] [Sub F]
    (sizeofVertex : Nat) (sc : FloatScanner F) (device : ID3D11Device F)
    (calls : List (CreateBufferCall F))
    (vertices : List (Vertex F)) (vertexCount : Nat) (indices : List Nat) (indexCount : Nat) :
    ((arraysStart indexCount calls).mesh.vertexBuffer = none ∧
     (arraysStart indexCount calls).mesh.indexBuffer = none ∧
     (CreateVertexBuffer sizeofVertex device (arraysStart indexCount calls)
        vertices vertexCount).mesh.indexBuffer = none ∧
     Mesh.fromArrays sizeofVertex device calls vertices vertexCount indices indexCount =
       CreateIndexBuffer device
         (CreateVertexBuffer sizeofVertex device (arraysStart indexCount calls)
            vertices vertexCount) indices indexCount ∧
     (∀ h, (Mesh.fromArrays sizeofVertex device calls vertices vertexCount indices
              indexCount).mesh.vertexBuffer = some h ↔
        device calls (vertexBufferDesc sizeofVertex vertexCount)
          { pSysMem := SysMem.vertices vertices } = OutWrite.stored h) ∧
     (∀ h, (Mesh.fromArrays sizeofVertex device calls vertices vertexCount indices
              indexCount).mesh.indexBuffer = some h ↔
        device (CreateVertexBuffer sizeofVertex device (arraysStart indexCount calls)
            vertices vertexCount).calls (indexBufferDesc indexCount)
          { pSysMem := SysMem.indices indices } = OutWrite.stored h)) ∧
    ((fileStart calls).mesh.vertexBuffer = none ∧
     (fileStart calls).mesh.indexBuffer = none ∧
     Mesh.fromFile sizeofVertex sc device calls none = some (fileStart calls) ∧
     (∀ text, Mesh.fromFile sizeofVertex sc device calls (some text) =
        (parseText sc text).map (createBuffers sizeofVertex device (fileStart calls))) ∧
     (∀ st : ParseState F,
        (CreateVertexBuffer sizeofVertex device (fileStart calls)
          st.verts st.vertCounter).mesh.indexBuffer = none ∧
        createBuffers sizeofVertex device (fileStart calls) st =
          { (CreateIndexBuffer device
              (CreateVertexBuffer sizeofVertex device (fileStart calls)
                st.verts st.vertCounter) st.indices st.vertCounter) with
            mesh := { (CreateIndexBuffer device
              (CreateVertexBuffer sizeofVertex device (fileStart calls)
                st.verts st.vertCounter) st.indices st.vertCounter).mesh with
              indexCount := st.vertCounter } } ∧
        (∀ h, (createBuffers sizeofVertex device (fileStart calls) st).mesh.vertexBuffer
              = some h ↔
          device calls (vertexBufferDesc sizeofVertex st.vertCounter)
            { pSysMem := SysMem.vertices st.verts } = OutWrite.stored h) ∧
        (∀ h, (createBuffers sizeofVertex device (fileStart calls) st).mesh.indexBuffer
              = some h ↔
          device (CreateVertexBuffer sizeofVertex device (fileStart calls)
              st.verts st.vertCounter).calls (indexBufferDesc st.vertCounter)
            { pSysMem := SysMem.indices st.indices } = OutWrite.stored h))) := by
  refine ⟨⟨rfl, rfl, rfl, rfl, ?_, ?_⟩, rfl, rfl, rfl, ?_, ?_⟩
  · intro h
    exact apply_none_eq_some _ h
  · intro h
    exact apply_none_eq_some _ h
  · intro text
    exact fromFile_some sizeofVertex sc device calls text
  · intro st
    refine ⟨rfl, rfl, ?_, ?_⟩
    · intro h
      exact apply_none_eq_some _ h
    · intro h
      exact apply_none_eq_some _ h

/-- C5 at the sample text and at a text without a face line, with the sample device: both
creations run and the handles are the ones the device stored. -/
theorem C5_handles_witness :
    (∃ w, Mesh.fromFile 32 sampleScanner sampleDevice [] (some sampleText) = some w ∧
      w.mesh.vertexBuffer = some 1 ∧ w.mesh.indexBuffer = some 2) ∧
    (∃ w, Mesh.fromFile 32 sampleScanner sampleDevice [] (some facelessText) = some w ∧
      w.mesh.vertexBuffer = some 1 ∧ w.mesh.indexBuffer = some 2 ∧ w.calls.length = 2) := by
  obtain ⟨_, _, _, _, hlink, hall⟩ :=
    C5_handles_null_until_created 32 sampleScanner sampleDevice [] [] 0 [] 0
  constructor
  · have hsome : (parseText sampleScanner sampleText).isSome = true := by decide
    obtain ⟨st, hst⟩ := Option.isSome_iff_exists.mp hsome
    obtain ⟨_, _, hv, hi⟩ := hall st
    refine ⟨createBuffers 32 sampleDevice (fileStart []) st, ?_, (hv 1).mpr rfl,
      (hi 2).mpr rfl⟩
    rw [hlink, hst]
    rfl
  · have hsome : (parseText sampleScanner facelessText).isSome = true := by decide
    obtain ⟨st, hst⟩ := Option.isSome_iff_exists.mp hsome
    obtain ⟨_, _, hv, hi⟩ := hall st
    refine ⟨createBuffers 32 sampleDevice (fileStart []) st, ?_, (hv 1).mpr rfl,
      (hi 2).mpr rfl, rfl⟩
    rw [hlink, hst]
    rfl

/-- C6: the destructor calls `Release` once on each of the two handles that is non-null, on
nothing else, and leaves both handles null, so that a second run releases nothing. Over a
lifetime that starts with either constructor the handles released are exactly the ones the
device stored in the `CreateBuffer` calls of that constructor, each once: the two calls of
the constructor from arrays; none after a failed open; the two calls after the loop of the
constructor from a file, whatever locals `st` the loop leaves. -/
theorem C6_released_exactly_once {F : Type} [One F] [Neg F] [Mul F] [Sub F]
    (m : Mesh)
    (sizeofVertex : Nat) (sc : FloatScanner F) (device : ID3D11Device F)
    (calls : List (CreateBufferCall F))
    (vertices : List (Vertex F)) (vertexCount : Nat) (indices : List Nat) (indexCount : Nat) :
    (m.destroy.2 = m.vertexBuffer.toList ++ m.indexBuffer.toList ∧
     m.destroy.1.vertexBuffer = none ∧ m.destroy.1.indexBuffer = none ∧
     m.destroy.1.indexCount = m.indexCount ∧
     m.destroy.1.destroy.2 = []) ∧
    ((Mesh.fromArrays sizeofVertex device calls vertices vertexCount indices
        indexCount).mesh.destroy.2 =
      storedHandles ((Mesh.fromArrays sizeofVertex device calls vertices vertexCount indices
        indexCount).calls.drop calls.length)) ∧
    (Mesh.fromFile sizeofVertex sc device calls none = some (fileStart calls) ∧
     (fileStart calls).mesh.destroy.2 = [] ∧
     (fileStart calls : World F).calls.drop calls.length = []) ∧
    (∀ text, Mesh.fromFile sizeofVertex sc device calls (some text) =
      (parseText sc text).map (createBuffers sizeofVertex device (fileStart calls))) ∧
    (∀ st : ParseState F,
      (createBuffers sizeofVertex device (fileStart calls) st).mesh.destroy.2 =
        storedHandles ((createBuffers sizeofVertex device (fileStart calls) st).calls.drop
          calls.length)) := by
  have hdestroy : ∀ m : Mesh, m.destroy.2 = m.vertexBuffer.toList ++ m.indexBuffer.toList := by
    intro m
    cases hv : m.vertexBuffer <;> cases hi : m.indexBuffer <;>
      simp [Mesh.destroy, hv, hi]
  have hpair : ∀ (w0 : World F) (vs : List (Vertex F)) (ks : List Nat) (a b : Nat),
      w0.mesh.vertexBuffer = none → w0.mesh.indexBuffer = none →
      ((CreateIndexBuffer device (CreateVertexBuffer sizeofVertex device w0 vs a)
          ks b).mesh.vertexBuffer).toList ++
        ((CreateIndexBuffer device (CreateVertexBuffer sizeofVertex device w0 vs a)
          ks b).mesh.indexBuffer).toList =
      storedHandles ((CreateIndexBuffer device
        (CreateVertexBuffer sizeofVertex device w0 vs a) ks b).calls.drop w0.calls.length) := by
    intro w0 vs ks a b h1 h2
    simp only [CreateIndexBuffer, CreateVertexBuffer, h1, h2, List.append_assoc,
      List.drop_left, storedHandles]
    cases device w0.calls (vertexBufferDesc sizeofVertex a) { pSysMem := SysMem.vertices vs }
      <;> cases device (w0.calls ++ [_]) (indexBufferDesc b) { pSysMem := SysMem.indices ks }
      <;> simp [OutWrite.apply, List.filterMap_cons]
  refine ⟨⟨hdestroy m, rfl, rfl, rfl, ?_⟩, ?_, ⟨rfl, rfl, ?_⟩, ?_, ?_⟩
  · rw [hdestroy]
    rfl
  · rw [hdestroy]
    exact hpair (arraysStart indexCount calls) vertices indices vertexCount indexCount rfl rfl
  · simp [fileStart]
  · intro text
    exact fromFile_some sizeofVertex sc device calls text
  · intro st
    rw [hdestroy]
    exact hpair (fileStart calls) st.verts st.indices st.vertCounter st.vertCounter rfl rfl

/-- C6 at the sample text and at a text without a face line: the two buffers the
constructor created are the two released, and a second run of the destructor releases
nothing. -/
theorem C6_released_witness :
    (∃ w, Mesh.fromFile 32 sampleScanner sampleDevice [] (some sampleText) = some w ∧
      w.mesh.destroy.2 = [1, 2] ∧ w.mesh.destroy.1.destroy.2 = []) ∧
    (∃ w, Mesh.fromFile 32 sampleScanner sampleDevice [] (some facelessText) = some w ∧
      w.mesh.destroy.2 = [1, 2] ∧ w.mesh.destroy.1.destroy.2 = []) := by
  have key : ∀ text : List Char, (parseText sampleScanner text).isSome = true →
      ∃ w, Mesh.fromFile 32 sampleScanner sampleDevice [] (some text) = some w ∧
        w.mesh.destroy.2 = [1, 2] ∧ w.mesh.destroy.1.destroy.2 = [] := by
    intro text hsome
    obtain ⟨st, hst⟩ := Option.isSome_iff_exists.mp hsome
    obtain ⟨⟨_, _, _, _, h5⟩, _, _, hlink, hall⟩ :=
      C6_released_exactly_once (createBuffers 32 sampleDevice (fileStart []) st).mesh
        32 sampleScanner sampleDevice [] [] 0 [] 0
    refine ⟨createBuffers 32 sampleDevice (fileStart []) st, ?_, ?_, h5⟩
    · rw [hlink, hst]
      rfl
    · rw [hall st]
      rfl
  exact ⟨key sampleText (by decide), key facelessText (by decide)⟩

/-- C7, amended: after the loop, for every input on which it completes, `verts` and
`indices` have the same size, `vertCounter` is that size modulo `2 ^ 32`, and
`indices[k] = k mod 2 ^ 32` for every `k`; when fewer than `2 ^ 32` vertices were
assembled, `vertCounter` is the size itself and `indices[k] = k`. -/
theorem C7_counter_and_identity_indices {F : Type} [One F] [Neg F] [Mul F] [Sub F]
    (sc : FloatScanner F) (text : List Char) (st : ParseState F)
    (h : parseText sc text = some st) :
    st.indices.length = st.verts.length ∧
    st.vertCounter = st.verts.length % UINT_MOD ∧
    (∀ k, k < st.verts.length → st.indices[k]? = some (k % UINT_MOD)) ∧
    (st.verts.length < UINT_MOD →
      st.vertCounter = st.verts.length ∧ st.indices = List.range st.vertCounter) := by
  obtain ⟨hi, hc⟩ := parseLoop_aligned sc _ _ _ h aligned_initial
  refine ⟨by rw [hi]; simp, hc, ?_, ?_⟩
  · intro k hk
    rw [hi]
    simp [List.getElem?_range hk]
  · intro hlt
    have hc2 : st.vertCounter = st.verts.length := by
      rw [hc]
      exact Nat.mod_eq_of_lt hlt
    refine ⟨hc2, ?_⟩
    rw [hc2, hi]
    apply List.ext_getElem
    · simp
    · intro n h1 h2
      simp only [List.getElem_map, List.getElem_range]
      simp only [List.length_range] at h2
      exact Nat.mod_eq_of_lt (by omega)

/-- C7 at the sample text: nine vertices, nine indices `0 .. 8`, counter 9. -/
theorem C7_counter_witness :
    ∃ st, parseText sampleScanner sampleText = some st ∧
      st.vertCounter = 9 ∧ st.verts.length = 9 ∧ st.indices = [0, 1, 2, 3, 4, 5, 6, 7, 8] := by
  have hsome : (parseText sampleScanner sampleText).isSome = true := by decide
  obtain ⟨st, hst⟩ := Option.isSome_iff_exists.mp hsome
  have h := C7_counter_and_identity_indices sampleScanner sampleText st hst
  have hlen : st.verts.length = 9 := by
    have : (parseText sampleScanner sampleText).map (fun s => s.verts.length) = some 9 := by
      decide
    rw [hst] at this
    simpa using this
  obtain ⟨_, _, _, h4⟩ := h
  have h5 := h4 (by rw [hlen]; decide)
  refine ⟨st, hst, by rw [h5.1, hlen], hlen, ?_⟩
  rw [h5.2, h5.1, hlen]
  decide

/-- C7 as stated fails once `2 ^ 32` vertices or more are assembled: on the text with
715827883 quad lines the loop ends with 4294967298 vertices while `vertCounter`, an
`unsigned int`, has wrapped to 2. -/
theorem C7_counter_wraps_counterexample :
    ∃ st, parseText sampleScanner (manyQuadsText 715827883) = some st ∧
      st.verts.length = 4294967298 ∧ st.vertCounter = 2 := by
  obtain ⟨st, hst, hlen⟩ := parseText_manyQuadsText 715827883
  obtain ⟨_, hc⟩ := parseLoop_aligned sampleScanner _ _ _ hst aligned_initial
  have e : 6 * 715827883 = 4294967298 := by norm_num
  rw [e] at hlen
  refine ⟨st, hst, hlen, ?_⟩
  rw [hc, hlen]
  decide

/-- C8, amended: for every OBJ text in which each face line is shorter than 100 characters,
has three or four complete corners, and has every index `k` satisfy `1 ≤ k ≤` the number of
`v`, `vt`, `vn` lines before that line, the loop runs to its end, and at every face line it
processes every corner's three subscripts `k - 1` are computed without wrapping and are in
bounds of `positions`, `uvs`, `normals` as they stand then. -/
theorem C8_face_lookups_in_bounds {F : Type} [One F] [Neg F] [Mul F] [Sub F]
    (sc : FloatScanner F) (text : List Char)
    (hlen : ∀ l ∈ textLines text, classify l = LineKind.face → l.length < 100)
    (hwf : wellFormedFrom 0 0 0 (textLines text) = true) :
    (∃ st, parseText sc text = some st) ∧
    ∀ before chars after, getlines [] text = before ++ chars :: after →
      classify chars = LineKind.face →
      ∃ st facesRead i,
        parseLoop sc before (ParseState.initial F) = some st ∧
        sscanfFace (cstr chars) = some (facesRead, i) ∧
        (corners chars = 3 ∨ corners chars = 4) ∧
        ∀ c, c < corners chars →
          ∃ p t n, i[3 * c]? = some p ∧ i[3 * c + 1]? = some t ∧ i[3 * c + 2]? = some n ∧
            (sub1 p = p - 1 ∧ sub1 p < st.positions.length) ∧
            (sub1 t = t - 1 ∧ sub1 t < st.uvs.length) ∧
            (sub1 n = n - 1 ∧ sub1 n < st.normals.length) := by
  have hwf2 := wellFormedFrom_getlines text hlen hwf
  constructor
  · obtain ⟨st, hst, _⟩ :=
      parseLoop_wellFormed sc (getlines [] text) (ParseState.initial F) hwf2
    exact ⟨st, hst⟩
  · intro before chars after hsplit hk
    rw [hsplit] at hwf2
    obtain ⟨st, hst, hrest⟩ :=
      parseLoop_wellFormed_split sc before (chars :: after) (ParseState.initial F) hwf2
    unfold wellFormedFrom at hrest
    simp only [hk, Bool.and_eq_true] at hrest
    obtain ⟨facesRead, i, hs, hlt, hc, hall⟩ := faceWellFormed_corners _ _ _ chars hrest.1
    refine ⟨st, facesRead, i, hst, hs, ?_, ?_⟩
    · rcases hc with hc | hc
      · exact Or.inl hc.1
      · exact Or.inr hc.1
    · intro c hcl
      obtain ⟨p, t, n, hp, ht, hn, a, b, d, _⟩ :=
        lookupVertex_of_inRange st i (3 * c) hlt (hall c hcl)
      exact ⟨p, t, n, hp, ht, hn, a, b, d⟩

/-- C8 at the sample text. -/
theorem C8_face_lookups_witness :
    (∀ l ∈ textLines sampleText, classify l = LineKind.face → l.length < 100) ∧
    wellFormedFrom 0 0 0 (textLines sampleText) = true ∧
    (∃ st, parseText sampleScanner sampleText = some st) :=
  ⟨by decide, by decide,
    (C8_face_lookups_in_bounds sampleScanner sampleText (by decide) (by decide)).1⟩

set_option maxRecDepth 20000 in
/-- C8 as stated fails on a text with a face line of 100 characters or more: the face line
of `paddedText` has three complete corners with in-range indices, but the loop body sees
only its first 99 characters, `sscanf_s` assigns four values, and the lookup for the second
corner reads `i[4]`, which was never assigned. -/
theorem C8_long_face_line_counterexample :
    (textLines paddedText).map List.length = [7, 6, 8, 108, 0] ∧
    wellFormedFrom 0 0 0 (textLines paddedText) = true ∧
    (getlines [] paddedText).getLast?.map
      (fun chars => (chars.length, sscanfFace (cstr chars))) =
        some (99, some (4, [1, 1, 1, 1])) ∧
    parseText sampleScanner paddedText = none := by
  refine ⟨by decide, by decide, by decide, by decide⟩

/-- C9, amended: for every count, `CreateVertexBuffer` makes one `CreateBuffer` call whose
description is immutable, vertex-bound, with `ByteWidth` equal to `sizeof(Vertex) * count`
reduced modulo `2 ^ 32` (the product itself exactly when it is below `2 ^ 32`), and
`CreateIndexBuffer` one whose description is immutable, index-bound, with `ByteWidth` equal
to `4 * count` reduced modulo `2 ^ 32` (the product itself exactly when it is below
`2 ^ 32`); both have `CPUAccessFlags`, `MiscFlags` and `StructureByteStride` 0 and pass the
caller's array as initial data. -/
theorem C9_buffer_descriptions {F : Type}
    (sizeofVertex : Nat) (device : ID3D11Device F) (w : World F)
    (vertices : List (Vertex F)) (indices : List Nat) (count : Nat) :
    (∃ r, (CreateVertexBuffer sizeofVertex device w vertices count).calls = w.calls ++
      [{ desc := { Usage := D3D11_USAGE.IMMUTABLE,
                   ByteWidth := (sizeofVertex * count) % UINT_MOD,
                   BindFlags := D3D11_BIND_VERTEX_BUFFER,
                   CPUAccessFlags := 0, MiscFlags := 0, StructureByteStride := 0 },
         initialData := { pSysMem := SysMem.vertices vertices },
         result := r }]) ∧
    ((vertexBufferDesc sizeofVertex count).ByteWidth = sizeofVertex * count ↔
      sizeofVertex * count < UINT_MOD) ∧
    (∃ r, (CreateIndexBuffer device w indices count).calls = w.calls ++
      [{ desc := { Usage := D3D11_USAGE.IMMUTABLE,
                   ByteWidth := (4 * count) % UINT_MOD,
                   BindFlags := D3D11_BIND_INDEX_BUFFER,
                   CPUAccessFlags := 0, MiscFlags := 0, StructureByteStride := 0 },
         initialData := { pSysMem := SysMem.indices indices },
         result := r }]) ∧
    ((indexBufferDesc count).ByteWidth = 4 * count ↔ 4 * count < UINT_MOD) := by
  refine ⟨⟨_, rfl⟩, ?_, ⟨_, rfl⟩, ?_⟩
  · simp only [vertexBufferDesc]
    constructor
    · intro h
      rw [← h]
      exact Nat.mod_lt _ (by decide)
    · exact Nat.mod_eq_of_lt
  · simp only [indexBufferDesc, sizeofInt]
    constructor
    · intro h
      rw [← h]
      exact Nat.mod_lt _ (by decide)
    · exact Nat.mod_eq_of_lt

/-- C9 as stated fails for a count of `2 ^ 30`, a value an `unsigned int` can hold: the
index buffer is described with `ByteWidth = 0`, not `4 * 2 ^ 30`. -/
theorem C9_byte_width_wraps_counterexample :
    (1073741824 < UINT_MOD) ∧
    (CreateIndexBuffer sampleDevice (arraysStart 1073741824 []) [0, 1, 2]
      1073741824).calls.map (fun c => c.desc.ByteWidth) = [0] ∧
    4 * 1073741824 ≠ 0 := by
  refine ⟨by decide, by decide, by decide⟩

/-- C10, amended: in every OBJ text whose lines are each shorter than 100 characters, the
loop body runs on every line of the text, in order, and classifies it by its first
characters with fixed precedence. A line starting with `vn` appends one normal and changes
nothing else; a line starting with `vt` appends one UV and changes nothing else; any other
line starting with `v` appends one position and changes nothing else; a line starting with
`f`, when its branch completes, leaves positions, normals and UVs as they were and appends
three or six vertices and as many indices; every other line leaves the whole state
unchanged. When the loop has run to its end there is one normal, UV and position for each
`vn`, `vt` and `v` line of the text, in file order. -/
theorem C10_line_classification {F : Type} [One F] [Neg F] [Mul F] [Sub F]
    (sc : FloatScanner F) (text : List Char) (before after : List (List Char))
    (chars : List Char)
    (hlen : ∀ l ∈ textLines text, l.length < 100)
    (hsplit : textLines text = before ++ chars :: after) :
    getlines [] text = before ++ chars :: after ∧
    parseLoop sc (before ++ [chars]) (ParseState.initial F) =
      (parseLoop sc before (ParseState.initial F)).bind (fun st => processLine sc st chars) ∧
    (∀ st : ParseState F,
      (∀ r, chars = 'v' :: 'n' :: r → processLine sc st chars =
        some { st with normals := st.normals ++ [sc.vec3 "vn %f %f %f" (cstr chars)] }) ∧
      (∀ r, chars = 'v' :: 't' :: r → processLine sc st chars =
        some { st with uvs := st.uvs ++ [sc.vec2 "vt %f %f" (cstr chars)] }) ∧
      (∀ r, chars = 'v' :: r → r.head? ≠ some 'n' → r.head? ≠ some 't' →
        processLine sc st chars =
          some { st with positions :=
            st.positions ++ [sc.vec3 "v %f %f %f" (cstr chars)] }) ∧
      (∀ r st1, chars = 'f' :: r → processLine sc st chars = some st1 →
        st1.positions = st.positions ∧ st1.normals = st.normals ∧ st1.uvs = st.uvs ∧
        ∃ vs ks, st1.verts = st.verts ++ vs ∧ st1.indices = st.indices ++ ks ∧
          ks.length = vs.length ∧ (vs.length = 3 ∨ vs.length = 6)) ∧
      (chars.head? ≠ some 'v' → chars.head? ≠ some 'f' →
        processLine sc st chars = some st)) ∧
    (∀ final, parseText sc text = some final →
      final.positions = (linesOfKind LineKind.position (textLines text)).map
        (fun l => sc.vec3 "v %f %f %f" (cstr l)) ∧
      final.uvs = (linesOfKind LineKind.uv (textLines text)).map
        (fun l => sc.vec2 "vt %f %f" (cstr l)) ∧
      final.normals = (linesOfKind LineKind.normal (textLines text)).map
        (fun l => sc.vec3 "vn %f %f %f" (cstr l))) := by
  have hg := getlines_eq_textLines text hlen
  refine ⟨by rw [hg, hsplit], ?_, ?_, ?_⟩
  · rw [parseLoop_append]
    cases parseLoop sc before (ParseState.initial F) with
    | none => rfl
    | some st =>
      simp only [Option.some_bind, parseLoop]
      cases processLine sc st chars <;> rfl
  · intro st
    obtain ⟨e1, e2, e3, e4, e5⟩ := processLine_effects sc st
    refine ⟨?_, ?_, ?_, ?_, ?_⟩
    · intro r hr
      rw [hr]
      exact e1 r
    · intro r hr
      rw [hr]
      exact e2 r
    · intro r hr hn ht
      rw [hr]
      exact e3 r hn ht
    · intro r st1 hr h
      rw [hr] at h
      exact e4 r st1 h
    · intro hv hf
      exact e5 chars hv hf
  · intro final hfinal
    unfold parseText at hfinal
    rw [hg] at hfinal
    have h := parseLoop_collects sc (textLines text) _ final hfinal
    simpa [ParseState.initial] using h

/-- C10 at the second line of the sample text, a `v` line: it appends the first position
and nothing else. -/
theorem C10_line_classification_witness :
    (∀ l ∈ textLines sampleText, l.length < 100) ∧
    parseLoop sampleScanner ["# demo".toList, "v 1 2 3".toList] (ParseState.initial Int) =
      some { positions := [⟨1, 2, 3⟩], normals := [], uvs := [], verts := [], indices := [],
             vertCounter := 0 } := by
  refine ⟨by decide, ?_⟩
  obtain ⟨_, h2, h3, _⟩ :=
    C10_line_classification sampleScanner sampleText ["# demo".toList] _ "v 1 2 3".toList
      (by decide) (show textLines sampleText = ["# demo".toList] ++ "v 1 2 3".toList ::
        (textLines sampleText).drop 2 by decide)
  have h0 : parseLoop sampleScanner ["# demo".toList] (ParseState.initial Int) =
      some (ParseState.initial Int) := by decide
  rw [h0] at h2
  simp only [Option.some_bind] at h2
  have h4 := (h3 (ParseState.initial Int)).2.2.1 " 1 2 3".toList (by decide) (by decide)
    (by decide)
  have h5 : (["# demo".toList] ++ ["v 1 2 3".toList] : List (List Char)) =
      ["# demo".toList, "v 1 2 3".toList] := rfl
  rw [h5] at h2
  rw [h2, h4]
  decide

set_option maxRecDepth 20000 in
/-- C10 as stated fails on the lines after a line of 100 characters or more:
`longCommentText` has a comment line of 101 characters followed by a `vn`, a `vt` and a `v`
line; the loop stops after the first 99 characters of the comment, and no normal, UV or
position is appended. -/
theorem C10_line_after_long_line_counterexample :
    (textLines longCommentText).map (fun l => (l.length, classify l)) =
      [(101, LineKind.other), (8, LineKind.normal), (6, LineKind.uv),
        (7, LineKind.position), (0, LineKind.other)] ∧
    parseText sampleScanner longCommentText = some (ParseState.initial Int) := by
  refine ⟨by decide, by decide⟩

end DX11Starter
